import Mathlib

/-!
# Verification of the IDF_Converter translation core

Shallow embedding of the repository's translation logic:

* `src/idf_updater.py` — `update_idf_from_excel` (the Update Engine) and
  `validate_excel_for_update` (the Tabular Validator);
* `src/idf_processor.py` — `extract_idf_data` (the Extraction/Flattening
  Engine) and `write_data_to_excel` (the Tabular Writer).

Modelling conventions:

* An eppy `EpBunch` object is an `IdfObject`: `obj` is the positional value
  list `obj.obj` (strings) and `fieldnames` is `obj.fieldnames` (the
  schema's ordered field-name list for the object's type).  The attribute
  read `obj.Name` is not stored state: eppy resolves it live as
  `obj.obj[obj.fieldnames.index('Name')]`, modelled by `IdfObject.getName`
  (`none` when `'Name'` is not among the field names or the populated
  values do not reach its position, in which case the attribute read fails
  and so does `hasattr(obj, 'Name')`).  In particular an update that
  overwrites the value at the `Name` position changes what later matching
  scans see.
* `idf.idfobjects` is an association list from object-type key to the list
  of instances of that type; as in a Python dict its keys are intended to
  be distinct (stated as a `Nodup` hypothesis where a proof needs it), and
  it carries a key for every type the IDD declares, including types with
  zero instances.
* A pandas DataFrame sheet used for update is a `Sheet`: a name plus rows
  each carrying the ObjectName/FieldName/Value cells as strings
  (`new_value = str(row['Value'])` in the source).
* `df.groupby('ObjectName')` is modelled by `groupByName`: groups keyed by
  the distinct object names in ascending string order (pandas sorts group
  keys), each group listing that name's rows in original order.
* Python in-place mutation of the shared object list is modelled by
  explicit state passing: the matched object's index is found, its updated
  value is written back with `List.set`, and the type's entry is written
  back into the association list.
-/

/-- One parsed model object: eppy's `EpBunch` as seen by the repository. -/
structure IdfObject where
  fieldnames : List String
  obj : List String
deriving DecidableEq, Repr

/-- The live attribute read `obj.Name`: eppy resolves it on every access as
`obj.obj[obj.fieldnames.index('Name')]` against the CURRENT positional
values.  `getName o = some v` models `hasattr(obj, 'Name')` holding with
`obj.Name == v`; it is `none` when `'Name'` is not among the field names or
the populated values do not reach its position (the read raises, so
`hasattr` fails too). -/
def IdfObject.getName (o : IdfObject) : Option String :=
  match o.fieldnames.findIdx? (fun fn => fn == "Name") with
  | some i => o.obj[i]?
  | none => none

/-- One edit-table row of a per-type sheet (ObjectName, FieldName, Value). -/
structure Row where
  objectName : String
  fieldName : String
  value : String
deriving DecidableEq, Repr

/-- One worksheet of the modified Excel file, as read for update. -/
structure Sheet where
  name : String
  rows : List Row
deriving DecidableEq, Repr

/-- The parsed model: `idf.idfobjects` keyed by object type. -/
structure Idf where
  idfobjects : List (String × List IdfObject)
deriving DecidableEq, Repr

/-- Audit entry appended on every textual value change (source lines 143-150). -/
structure UpdateRecord where
  object_type : String
  object_name : String
  field_name : String
  old_value : String
  new_value : String
deriving DecidableEq, Repr

/-- The `stats` dictionary accumulated by `update_idf_from_excel`. -/
structure UpdateStats where
  total_updates : Nat
  successful_updates : Nat
  failed_updates : Nat
  warnings : List String
  errors : List String
  updated_objects : List UpdateRecord
deriving DecidableEq, Repr

/-- The freshly initialised statistics (source lines 77-84). -/
def initStats : UpdateStats :=
  { total_updates := 0, successful_updates := 0, failed_updates := 0,
    warnings := [], errors := [], updated_objects := [] }

/-- A single-quote character, used to render the source's f-string messages. -/
def pyq : String := String.singleton (Char.ofNat 39)

/-- Wraps a string in single quotes, as Python f-string literals do. -/
def quoted (s : String) : String := pyq ++ s ++ pyq

/-- Warning for a FieldName absent from the object's field list (line 153-155). -/
def fieldNotFoundWarning (field_name object_name object_type : String) : String :=
  "Field " ++ quoted field_name ++ " not found in object " ++ quoted object_name ++
    " of type " ++ quoted object_type

/-- Error entry produced when reading `matching_object.obj[field_index]` raises
`IndexError` (a FieldName whose schema position exceeds the instance's
populated length); caught by the row-level `except` (lines 158-162). -/
def indexErrorMsg (field_name object_name : String) : String :=
  "Error updating field " ++ quoted field_name ++ " in object " ++ quoted object_name ++
    ": list index out of range"

/-- Warning for an ObjectName matching no instance of the type (lines 164-166). -/
def objectNotFoundWarning (object_name object_type : String) : String :=
  "Object " ++ quoted object_name ++ " of type " ++ quoted object_type ++
    " not found in IDF"

/-- The body of the per-row loop (source lines 124-162): resolve the row's
FieldName in the matched object's field list, read the current value, and
overwrite it only when it differs textually from the row's Value. -/
def applyRow (object_type object_name : String) (st : IdfObject × UpdateStats)
    (row : Row) : IdfObject × UpdateStats :=
  match st.1.fieldnames.findIdx? (fun fn => fn == row.fieldName) with
  | some field_index =>
    match st.1.obj[field_index]? with
    | some old_value =>
      if old_value ≠ row.value then
        ({ st.1 with obj := st.1.obj.set field_index row.value },
         { st.2 with
             total_updates := st.2.total_updates + 1,
             successful_updates := st.2.successful_updates + 1,
             updated_objects := st.2.updated_objects ++
               [{ object_type := object_type, object_name := object_name,
                  field_name := row.fieldName, old_value := old_value,
                  new_value := row.value }] })
      else (st.1, st.2)
    | none =>
      (st.1, { st.2 with
                 errors := st.2.errors ++ [indexErrorMsg row.fieldName object_name],
                 failed_updates := st.2.failed_updates + 1 })
  | none =>
    (st.1, { st.2 with
               warnings := st.2.warnings ++
                 [fieldNotFoundWarning row.fieldName object_name object_type],
               failed_updates := st.2.failed_updates + 1 })

/-- The matching scan (source lines 116-120): the first object whose live
`Name` attribute read succeeds and equals the group's object name, together
with its position (the position encodes the Python reference that later
mutations go through).  Because `obj.Name` reads through to the instance's
current positional values, an earlier overwrite of the value at the `Name`
position changes what this scan matches. -/
def findMatch : List IdfObject → String → Option (Nat × IdfObject)
  | [], _ => none
  | o :: rest, object_name =>
    if (match o.getName with | some n => n == object_name | none => false) then
      some (0, o)
    else
      match findMatch rest object_name with
      | some (k, m) => some (k + 1, m)
      | none => none

/-- Code-point lexicographic comparison of character lists: the order Python
uses on `str` and hence the ascending key order of `df.groupby`. -/
def charListLt : List Char → List Char → Bool
  | [], [] => false
  | [], _ :: _ => true
  | _ :: _, [] => false
  | a :: as, b :: bs =>
    if a.val < b.val then true
    else if b.val < a.val then false
    else charListLt as bs

/-- Python's `<` on strings: code-point lexicographic. -/
def strLt (a b : String) : Bool := charListLt a.data b.data

/-- Insert a string into an ascending list (helper for the sorted group keys). -/
def insertSorted (s : String) : List String → List String
  | [] => [s]
  | t :: rest => if strLt s t then s :: t :: rest else t :: insertSorted s rest

/-- Ascending insertion sort on strings (pandas sorts group keys). -/
def sortKeys (l : List String) : List String := l.foldr insertSorted []

/-- The distinct elements of a list (order irrelevant: the keys get sorted). -/
def dedupKeys : List String → List String
  | [] => []
  | k :: rest =>
    if (dedupKeys rest).contains k then dedupKeys rest else k :: dedupKeys rest

/-- `df.groupby('ObjectName')` (source line 112): one group per distinct
ObjectName, in ascending name order, each keeping its rows in sheet order. -/
def groupByName (rows : List Row) : List (String × List Row) :=
  (sortKeys (dedupKeys (rows.map Row.objectName))).map
    (fun k => (k, rows.filter (fun r => r.objectName == k)))

/-- The body of the per-group loop (source lines 114-167): match the group's
ObjectName against the type's instances; on a match fold the group's rows
over the matched object, otherwise record one warning and one failed update. -/
def processGroup (object_type : String) (st : List IdfObject × UpdateStats)
    (group : String × List Row) : List IdfObject × UpdateStats :=
  match findMatch st.1 group.1 with
  | some (k, matching_object) =>
    match group.2.foldl (applyRow object_type group.1) (matching_object, st.2) with
    | (o, stats) => (st.1.set k o, stats)
  | none =>
    (st.1, { st.2 with
               warnings := st.2.warnings ++
                 [objectNotFoundWarning group.1 object_type],
               failed_updates := st.2.failed_updates + 1 })

/-- First entry of the association list with the given key (`dict` lookup). -/
def lookupType (entries : List (String × List IdfObject)) (t : String) :
    Option (List IdfObject) :=
  match entries.find? (fun p => p.1 == t) with
  | some p => some p.2
  | none => none

/-- Replace the value stored at a key (writing the mutated instance list back;
on a Python dict the key is unique, so only one entry changes). -/
def setType (entries : List (String × List IdfObject)) (t : String)
    (objs : List IdfObject) : List (String × List IdfObject) :=
  entries.map (fun p => if p.1 == t then (p.1, objs) else p)

/-- Python's `str.strip()`: drop leading and trailing whitespace
(source line 105, `object_type = sheet_name.strip()`). -/
def pyStrip (s : String) : String :=
  String.mk (((s.data.dropWhile Char.isWhitespace).reverse.dropWhile
    Char.isWhitespace).reverse)

/-- The body of the per-sheet loop (source lines 100-167): skip the `ALL`
sheet, take the stripped sheet name as the object type, and silently skip
sheets whose type the parsed model does not know (the source has no `else`
branch on `if object_type in idf.idfobjects`). -/
def processSheet (st : Idf × UpdateStats) (sheet : Sheet) : Idf × UpdateStats :=
  if sheet.name == "ALL" then st
  else
    match lookupType st.1.idfobjects (pyStrip sheet.name) with
    | some idf_objects =>
      match (groupByName sheet.rows).foldl (processGroup (pyStrip sheet.name))
          (idf_objects, st.2) with
      | (objs, stats) =>
        ({ idfobjects := setType st.1.idfobjects (pyStrip sheet.name) objs }, stats)
    | none => st

/-- `update_idf_from_excel` (source lines 50-172), restricted to its pure
core: the parsed model and the per-sheet edit tables in workbook order,
returning the mutated model and the accumulated statistics. -/
def update_idf_from_excel (idf : Idf) (sheets : List Sheet) : Idf × UpdateStats :=
  sheets.foldl processSheet (idf, initStats)

/-- One flattened (object, field) record as built by `extract_idf_data`
(source lines 113-118 of `idf_processor.py`). -/
structure FlatRecord where
  objectName : String
  fieldName : String
  value : String
  unit : String
deriving DecidableEq, Repr

/-- The inner loop of `extract_idf_data` (source lines 110-118): enumerate the
instance's positional values and emit a record for every position that the
field-name list covers, with `'N/A'` standing in whenever the live `Name`
attribute read fails (`hasattr(obj, 'Name')` false). -/
def recordsOfObject (o : IdfObject) : List FlatRecord :=
  o.obj.enum.filterMap (fun p =>
    match o.fieldnames[p.1]? with
    | some field_name =>
      some { objectName := match o.getName with | some n => n | none => "N/A",
             fieldName := field_name,
             value := p.2,
             unit := "" }
    | none => none)

/-- `extract_idf_data` (source lines 84-127), restricted to its pure core:
walk `idf.idfobjects`, keep only types with instances (`if objects:`) whose
flattening is non-empty (`if object_data:`). -/
def extract_idf_data (idf : Idf) : List (String × List FlatRecord) :=
  idf.idfobjects.filterMap (fun p =>
    if p.2.isEmpty then none
    else
      let object_data := (p.2.map recordsOfObject).flatten
      if object_data.isEmpty then none else some (p.1, object_data))

/-- One worksheet as written by pandas: an ordered column list and the rows
of cell values aligned to it. -/
structure Table where
  columns : List String
  cells : List (List String)
deriving DecidableEq, Repr

/-- A row of the consolidated sheet: `{'ObjectType': obj_type, **record}`
(source line 148), keys in Python dict insertion order. -/
def allRow (object_type : String) (r : FlatRecord) : List (String × String) :=
  [("ObjectType", object_type), ("ObjectName", r.objectName),
   ("FieldName", r.fieldName), ("Value", r.value), ("Unit", r.unit)]

/-- A row of a per-object-type sheet: the record dict as built by
`extract_idf_data` (source lines 113-118). -/
def typeRow (r : FlatRecord) : List (String × String) :=
  [("ObjectName", r.objectName), ("FieldName", r.fieldName),
   ("Value", r.value), ("Unit", r.unit)]

/-- The columns of `pd.DataFrame(list-of-dicts)`: the union of the rows' keys
in order of first appearance. -/
def dfColumns (rows : List (List (String × String))) : List String :=
  rows.foldl
    (fun cols row =>
      row.foldl (fun cs kv => if cs.contains kv.1 then cs else cs ++ [kv.1]) cols)
    []

/-- `pd.DataFrame(rows)`: columns from the rows' keys, each row's cells
aligned to the column list (missing keys would render as empty cells). -/
def mkTable (rows : List (List (String × String))) : Table :=
  { columns := dfColumns rows,
    cells := rows.map (fun row =>
      (dfColumns rows).map (fun c =>
        match row.find? (fun kv => kv.1 == c) with
        | some kv => kv.2
        | none => "")) }

/-- Worksheet-name sanitisation (source line 160):
`''.flatten(c for c in obj_type if c.isalnum() or c in (' ', '_')).rstrip()[:31]`
(over the ASCII alphanumerics; truncation counts characters). -/
def sanitizeSheetName (object_type : String) : String :=
  String.mk ((((object_type.data.filter
    (fun c => c.isAlphanum || c == ' ' || c == '_')).reverse.dropWhile
      Char.isWhitespace).reverse).take 31)

/-- `df.to_excel(writer, sheet_name=...)` inside one `pd.ExcelWriter` session:
a repeated sheet name reuses the existing worksheet, so the later write
silently replaces the earlier sheet's data; otherwise the sheet is appended. -/
def writeSheet (workbook : List (String × Table)) (sheet_name : String)
    (tbl : Table) : List (String × Table) :=
  if workbook.any (fun p => p.1 == sheet_name) then
    workbook.map (fun p => if p.1 == sheet_name then (sheet_name, tbl) else p)
  else workbook ++ [(sheet_name, tbl)]

/-- `write_data_to_excel` (source lines 129-169), restricted to its pure core:
the workbook produced from the extracted data — the consolidated `ALL`
sheet first (when there are records), then, when requested, one sheet per
object type under its sanitised name.  The source performs no sheet-name
collision check before `df.to_excel`. -/
def write_data_to_excel (all_sheets_data : List (String × List FlatRecord))
    (include_individual_sheets : Bool) : List (String × Table) :=
  if all_sheets_data.isEmpty then []
  else
    let all_data := (all_sheets_data.map (fun p => p.2.map (allRow p.1))).flatten
    let wb1 : List (String × Table) :=
      if all_data.isEmpty then [] else writeSheet [] "ALL" (mkTable all_data)
    if include_individual_sheets then
      all_sheets_data.foldl
        (fun wb p => writeSheet wb (sanitizeSheetName p.1) (mkTable (p.2.map typeRow)))
        wb1
    else wb1

/-- A worksheet as seen by the validator: its name, its column labels, and
its number of data rows (`df.empty` is `nrows = 0`). -/
structure RawSheet where
  name : String
  columns : List String
  nrows : Nat
deriving DecidableEq, Repr

/-- The required identity columns of a per-type sheet (source line 207). -/
def requiredColumns : List String := ["ObjectName", "FieldName", "Value"]

/-- Python's `repr` of a list of strings, as interpolated into the
validator's missing-columns message. -/
def pyListRepr (l : List String) : String :=
  "[" ++ String.intercalate ", " (l.map quoted) ++ "]"

/-- Message for a sheet missing required columns (source line 211). -/
def missingColumnsMsg (sheet_name : String) (missing : List String) : String :=
  "Sheet " ++ quoted sheet_name ++ " missing columns: " ++ pyListRepr missing

/-- Message for a sheet with zero data rows (source line 215). -/
def emptySheetMsg (sheet_name : String) : String :=
  "Sheet " ++ quoted sheet_name ++ " is empty"

/-- Message when only the `ALL` sheet is present (source line 201). -/
def noObjectSheetsMsg : String :=
  "No object-specific sheets found (only " ++ quoted "ALL" ++ " sheet present)"

/-- Message for a valid workbook (source line 220). -/
def validFormatMsg : String := "Excel file format is valid for IDF updates"

/-- The violation messages one object sheet contributes, in source order:
the missing-columns check (lines 207-211) then the emptiness check
(lines 214-215). -/
def sheetViolations (sh : RawSheet) : List String :=
  (match requiredColumns.filter (fun c => ¬ sh.columns.contains c) with
   | [] => []
   | missing => [missingColumnsMsg sh.name missing]) ++
  (if sh.nrows == 0 then [emptySheetMsg sh.name] else [])

/-- `validate_excel_for_update` (source lines 179-224), restricted to its pure
core: fail when only `ALL` is present, otherwise collect every sheet's
violations and succeed only when none were found. -/
def validate_excel_for_update (sheets : List RawSheet) : Bool × List String :=
  match sheets.filter (fun sh => ¬ sh.name == "ALL") with
  | [] => (false, [noObjectSheetsMsg])
  | object_sheets =>
    match (object_sheets.map sheetViolations).flatten with
    | [] => (true, [validFormatMsg])
    | messages => (false, messages)

/-- The mutation-invariant skeleton of an object: its field-name list and
its populated length.  `applyRow` only rewrites one value in place, so the
shape never changes across an update run (the live `Name` value, by
contrast, CAN change when a row edits the `Name` field itself). -/
def objShape (o : IdfObject) : List String × Nat :=
  (o.fieldnames, o.obj.length)

/-- A row is stable on an object when applying it cannot take the
overwrite branch: whenever its FieldName resolves to an in-range position,
the current value there already equals the row's Value. -/
def rowStable (o : IdfObject) (r : Row) : Prop :=
  ∀ fi old, o.fieldnames.findIdx? (fun fn => fn == r.fieldName) = some fi →
    o.obj[fi]? = some old → old = r.value

/-- A row is stable with respect to the current instance list of its type:
whatever object its name would match is stable for it. -/
def listRowStable (objs : List IdfObject) (r : Row) : Prop :=
  ∀ k o, findMatch objs r.objectName = some (k, o) → rowStable o r

/-- Shape equality of two instance lists. -/
def shapeEq (objs objs2 : List IdfObject) : Prop :=
  objs.map objShape = objs2.map objShape

/-- The per-sheet edit identity of a row: its (ObjectName, FieldName) pair. -/
def rowPair (r : Row) : String × String := (r.objectName, r.fieldName)

/-- The Python-dict invariant of the parsed model: type keys are distinct. -/
def NodupKeys (idf : Idf) : Prop := (idf.idfobjects.map Prod.fst).Nodup

/-- A row is stable relative to whatever instance list is stored under a
given object-type key. -/
def keyStable (idf : Idf) (t : String) (r : Row) : Prop :=
  ∀ objs, lookupType idf.idfobjects t = some objs → listRowStable objs r

/-- Every row of every non-`ALL` sheet of the edit table is stable on the
model: re-running the table cannot take any overwrite branch. -/
def allStable (idf : Idf) (sheets : List Sheet) : Prop :=
  ∀ sh ∈ sheets, ¬ sh.name = "ALL" →
    ∀ r ∈ sh.rows, keyStable idf (pyStrip sh.name) r

/-- The edit identity of every row occurrence of the table:
(trimmed sheet type, ObjectName, FieldName), in processing order. -/
def allEditKeys (sheets : List Sheet) : List (String × String × String) :=
  (sheets.filter (fun sh => sh.name != "ALL")).flatMap
    (fun sh => sh.rows.map
      (fun r => (pyStrip sh.name, r.objectName, r.fieldName)))

/-- No processed (non-`ALL`) row of the edit table targets the `Name` field
itself.  Because `obj.Name` reads through to the positional value list, a
row that overwrites the `Name` position renames its instance and thereby
changes what every later matching scan — in particular the second pass of a
repeated run — selects. -/
def noNameEdits (sheets : List Sheet) : Prop :=
  ∀ sh ∈ sheets, ¬ sh.name = "ALL" → ∀ r ∈ sh.rows, ¬ r.fieldName = "Name"

/-- The rename/re-route scenario: two ZONE instances, the first (`Y`) named
`C` and the second (`X`) named `B`. -/
def nameEditIdf : Idf :=
  ⟨[("ZONE", [⟨["Name", "W"], ["C", "7"]⟩, ⟨["Name", "W"], ["B", "5"]⟩])]⟩

/-- The edit table of the rename/re-route scenario: group `B` edits `W` and
group `C` renames its object to `B` — distinct edit identities, yet the
rename makes the second pass match group `B` against the renamed first
instance and apply one further update. -/
def nameEditSheets : List Sheet :=
  [⟨"ZONE", [⟨"B", "W", "9"⟩, ⟨"C", "Name", "B"⟩]⟩]

/-- A two-row edit table repeating one (ObjectName, FieldName) position with
two different Values: the update run is not idempotent on it. -/
def c1sheets : List Sheet :=
  [⟨"ZONE", [⟨"Z", "Width", "A"⟩, ⟨"Z", "Width", "B"⟩]⟩]

/-- A one-zone model for the C1 counterexample. -/
def c1idf : Idf :=
  ⟨[("ZONE", [⟨["key", "Name", "Width"], ["ZONE", "Z", "10"]⟩])]⟩

/-- The model used by the C2 counterexample: one ZONE named `A`. -/
def c2idf : Idf :=
  ⟨[("ZONE", [⟨["key", "Name"], ["ZONE", "A"]⟩])]⟩

/-- The edit sheet used by the C2 counterexample: one two-row group naming
the nonexistent object `B`. -/
def c2sheet : Sheet := ⟨"ZONE", [⟨"B", "Name", "x"⟩, ⟨"B", "Name", "y"⟩]⟩

/-- The model used by the C3 counterexample: it knows only the type ZONE. -/
def c3idf : Idf :=
  ⟨[("ZONE", [⟨["key", "Name"], ["ZONE", "A"]⟩])]⟩

/-- The edit sheet used by the C3 counterexample: its name denotes a type
absent from the parsed model. -/
def c3sheet : Sheet := ⟨"FOO", [⟨"X", "F", "1"⟩]⟩

/-- The statistics invariant: total equals successful, which equals the
number of appended audit records. -/
def statsOk (s : UpdateStats) : Prop :=
  s.total_updates = s.successful_updates ∧
  s.successful_updates = s.updated_objects.length

/-- The column list of the consolidated `ALL` sheet as the code produces it. -/
def allCols : List String :=
  ["ObjectType", "ObjectName", "FieldName", "Value", "Unit"]

/-- The column list of a per-object-type sheet as the code produces it. -/
def typeCols : List String := ["ObjectName", "FieldName", "Value", "Unit"]

/-- Two object-type names that differ only after character 31 of their
sanitised forms, used for the C7 counterexample and witness. -/
def c7t1 : String := "ABCDEFGHIJKLMNOPQRSTUVWXYZabcdeX"

/-- The second colliding object-type name. -/
def c7t2 : String := "ABCDEFGHIJKLMNOPQRSTUVWXYZabcdeY"

/-! ## Generic helpers -/

theorem foldl_preserve {α β : Type} {P : α → Prop} {f : α → β → α}
    (hf : ∀ a b, P a → P (f a b)) :
    ∀ (l : List β) (a : α), P a → P (l.foldl f a) := by
  intro l
  induction l with
  | nil => intro a ha; exact ha
  | cons b rest ih => intro a ha; exact ih (f a b) (hf a b ha)

theorem findIdx?_some_pred {α : Type} {p : α → Bool} :
    ∀ {l : List α} {i : Nat}, l.findIdx? p = some i →
      ∃ a, l[i]? = some a ∧ p a = true := by
  intro l
  induction l with
  | nil => intro i h; simp [List.findIdx?_nil] at h
  | cons x xs ih =>
    intro i h
    rw [List.findIdx?_cons] at h
    by_cases hx : p x
    · rw [if_pos hx] at h
      cases h
      exact ⟨x, by simp, hx⟩
    · rw [if_neg hx, List.findIdx?_succ] at h
      cases hfi : List.findIdx? p xs 0 with
      | none => rw [hfi] at h; exact absurd h (by simp)
      | some j =>
        rw [hfi] at h
        simp only [Option.map_some'] at h
        obtain ⟨a, ha, hpa⟩ := ih hfi
        cases h
        exact ⟨a, by simpa using ha, hpa⟩

theorem findIdx?_beq_inj {l : List String} {a b : String} {i j : Nat}
    (ha : l.findIdx? (fun fn => fn == a) = some i)
    (hb : l.findIdx? (fun fn => fn == b) = some j)
    (hab : a ≠ b) : i ≠ j := by
  intro hij
  obtain ⟨x, hx, hpx⟩ := findIdx?_some_pred ha
  obtain ⟨y, hy, hpy⟩ := findIdx?_some_pred hb
  rw [hij] at hx
  rw [hx] at hy
  cases hy
  have hxa : x = a := by simpa using hpx
  have hxb : x = b := by simpa using hpy
  exact hab (hxa ▸ hxb)

theorem set_getElem?_self {α : Type} {l : List α} {i : Nat} {a : α} :
    l[i]? = some a → l.set i a = l := by
  induction l generalizing i with
  | nil => intro h; simp at h
  | cons x xs ih =>
    intro h
    cases i with
    | zero => simp at h; simp [List.set, h]
    | succ j => simp at h; simp [List.set, ih h]

/-! ## Row-level lemmas about `applyRow` -/

theorem applyRow_shape (object_type object_name : String)
    (o : IdfObject) (s : UpdateStats) (row : Row) :
    objShape (applyRow object_type object_name (o, s) row).1 = objShape o := by
  cases h1 : o.fieldnames.findIdx? (fun fn => fn == row.fieldName) with
  | none => simp [applyRow, h1]
  | some fi =>
    cases h2 : o.obj[fi]? with
    | none => simp [applyRow, h1, h2]
    | some old =>
      by_cases hne : old = row.value
      · simp [applyRow, h1, h2, hne]
      · simp [applyRow, h1, h2, hne, objShape]

theorem applyRow_of_stable {o : IdfObject} {r : Row}
    (object_type object_name : String) (s : UpdateStats)
    (hst : rowStable o r) :
    (applyRow object_type object_name (o, s) r).1 = o ∧
    (applyRow object_type object_name (o, s) r).2.successful_updates =
      s.successful_updates ∧
    (applyRow object_type object_name (o, s) r).2.total_updates =
      s.total_updates ∧
    (applyRow object_type object_name (o, s) r).2.updated_objects =
      s.updated_objects := by
  cases h1 : o.fieldnames.findIdx? (fun fn => fn == r.fieldName) with
  | none => simp [applyRow, h1]
  | some fi =>
    cases h2 : o.obj[fi]? with
    | none => simp [applyRow, h1, h2]
    | some old =>
      have : old = r.value := hst fi old h1 h2
      simp [applyRow, h1, h2, this]

theorem applyRow_self_stable (object_type object_name : String)
    (o : IdfObject) (s : UpdateStats) (r : Row) :
    rowStable (applyRow object_type object_name (o, s) r).1 r := by
  cases h1 : o.fieldnames.findIdx? (fun fn => fn == r.fieldName) with
  | none =>
    intro fi old hf hg
    rw [show (applyRow object_type object_name (o, s) r).1 = o by
      simp [applyRow, h1]] at hf hg
    rw [h1] at hf
    cases hf
  | some fi =>
    cases h2 : o.obj[fi]? with
    | none =>
      intro fi2 old hf hg
      rw [show (applyRow object_type object_name (o, s) r).1 = o by
        simp [applyRow, h1, h2]] at hf hg
      rw [h1] at hf
      cases hf
      rw [h2] at hg
      cases hg
    | some old =>
      by_cases hne : old = r.value
      · intro fi2 old2 hf hg
        rw [show (applyRow object_type object_name (o, s) r).1 = o by
          simp [applyRow, h1, h2, hne]] at hf hg
        rw [h1] at hf
        cases hf
        rw [h2] at hg
        cases hg
        exact hne
      · intro fi2 old2 hf hg
        rw [show (applyRow object_type object_name (o, s) r).1 =
            { o with obj := o.obj.set fi r.value } by
          simp [applyRow, h1, h2, hne]] at hf hg
        simp only at hf hg
        rw [h1] at hf
        cases hf
        have hlt : fi < o.obj.length := (List.getElem?_eq_some_iff.mp h2).1
        rw [List.getElem?_set_eq_of_lt r.value hlt] at hg
        cases hg
        rfl

theorem applyRow_preserve_stable (object_type object_name : String)
    {o : IdfObject} {r r2 : Row} (s : UpdateStats)
    (hfn : r2.fieldName ≠ r.fieldName) (hst : rowStable o r) :
    rowStable (applyRow object_type object_name (o, s) r2).1 r := by
  cases h1 : o.fieldnames.findIdx? (fun fn => fn == r2.fieldName) with
  | none =>
    rw [show (applyRow object_type object_name (o, s) r2).1 = o by
      simp [applyRow, h1]]
    exact hst
  | some fi2 =>
    cases h2 : o.obj[fi2]? with
    | none =>
      rw [show (applyRow object_type object_name (o, s) r2).1 = o by
        simp [applyRow, h1, h2]]
      exact hst
    | some old2 =>
      by_cases hne : old2 = r2.value
      · rw [show (applyRow object_type object_name (o, s) r2).1 = o by
          simp [applyRow, h1, h2, hne]]
        exact hst
      · rw [show (applyRow object_type object_name (o, s) r2).1 =
            { o with obj := o.obj.set fi2 r2.value } by
          simp [applyRow, h1, h2, hne]]
        intro fi old hf hg
        simp only at hf hg
        have hij : fi2 ≠ fi := findIdx?_beq_inj h1 hf hfn
        rw [List.getElem?_set_ne hij] at hg
        exact hst fi old hf hg

/-! ## Lemmas about `findMatch` and the group fold -/

theorem findMatch_spec :
    ∀ {objs : List IdfObject} {n : String} {k : Nat} {o : IdfObject},
      findMatch objs n = some (k, o) → objs[k]? = some o ∧ o.getName = some n := by
  intro objs
  induction objs with
  | nil => intro n k o h; simp [findMatch] at h
  | cons x rest ih =>
    intro n k o h
    rw [findMatch] at h
    by_cases hx : (match x.getName with | some nm => nm == n | none => false) = true
    · rw [if_pos hx] at h
      cases h
      refine ⟨by simp, ?_⟩
      cases hnm : x.getName with
      | none => rw [hnm] at hx; simp at hx
      | some nm =>
        rw [hnm] at hx
        simp at hx
        rw [hx]
    · rw [if_neg hx] at h
      cases hrec : findMatch rest n with
      | none => rw [hrec] at h; cases h
      | some p =>
        rw [hrec] at h
        cases p with
        | mk k2 m =>
          cases h
          obtain ⟨hget, hname⟩ := ih hrec
          exact ⟨by simpa using hget, hname⟩

theorem findMatch_congr_names :
    ∀ {objs objs2 : List IdfObject} {n : String},
      objs.map IdfObject.getName = objs2.map IdfObject.getName →
      Option.map Prod.fst (findMatch objs n) =
        Option.map Prod.fst (findMatch objs2 n) := by
  intro objs
  induction objs with
  | nil =>
    intro objs2 n h
    cases objs2 with
    | nil => rfl
    | cons y ys => simp at h
  | cons x xs ih =>
    intro objs2 n h
    cases objs2 with
    | nil => simp at h
    | cons y ys =>
      simp only [List.map_cons, List.cons.injEq] at h
      rw [findMatch, findMatch, h.1]
      by_cases hy : (match y.getName with | some nm => nm == n | none => false) = true
      · rw [if_pos hy, if_pos hy]; simp
      · rw [if_neg hy, if_neg hy]
        have := @ih ys n h.2
        cases hxs : findMatch xs n with
        | none =>
          rw [hxs] at this
          cases hys : findMatch ys n with
          | none => rfl
          | some q => rw [hys] at this; simp at this
        | some p =>
          rw [hxs] at this
          cases hys : findMatch ys n with
          | none => rw [hys] at this; simp at this
          | some q =>
            rw [hys] at this
            simp only [Option.map_some'] at this
            cases p with
            | mk k m =>
              cases q with
              | mk k2 m2 =>
                simp at this
                rw [this]
                simp

/-- A row that does not target the `Name` field leaves the live `Name`
attribute unchanged: its FieldName resolves (if at all) to the first
occurrence of a DIFFERENT field name, so the written position cannot be
the one `obj.Name` reads through to. -/
theorem applyRow_getName (object_type object_name : String)
    (o : IdfObject) (s : UpdateStats) (r : Row) (hn : ¬ r.fieldName = "Name") :
    (applyRow object_type object_name (o, s) r).1.getName = o.getName := by
  cases h1 : o.fieldnames.findIdx? (fun fn => fn == r.fieldName) with
  | none => simp [applyRow, h1]
  | some fi =>
    cases h2 : o.obj[fi]? with
    | none => simp [applyRow, h1, h2]
    | some old =>
      by_cases hne : old = r.value
      · simp [applyRow, h1, h2, hne]
      · rw [show (applyRow object_type object_name (o, s) r).1 =
            { o with obj := o.obj.set fi r.value } from by
          simp [applyRow, h1, h2, hne]]
        cases hnm : o.fieldnames.findIdx? (fun fn => fn == "Name") with
        | none => simp [IdfObject.getName, hnm]
        | some i =>
          have hij : fi ≠ i := findIdx?_beq_inj h1 hnm hn
          simp only [IdfObject.getName, hnm]
          exact List.getElem?_set_ne hij

/-! Lemmas about folding a group's rows over the matched object. -/

theorem groupFold_getName (object_type object_name : String) :
    ∀ (rs : List Row) (o : IdfObject) (s : UpdateStats),
      (∀ r ∈ rs, ¬ r.fieldName = "Name") →
      ((rs.foldl (applyRow object_type object_name) (o, s)).1.getName =
        o.getName) := by
  intro rs
  induction rs with
  | nil => intro o s _; rfl
  | cons r rest ih =>
    intro o s hnn
    rw [List.foldl_cons]
    cases hres : applyRow object_type object_name (o, s) r with
    | mk o1 s1 =>
      have h1 : o1.getName = o.getName := by
        have := applyRow_getName object_type object_name o s r (hnn r (by simp))
        rw [hres] at this
        exact this
      rw [ih o1 s1 (fun r2 hr2 => hnn r2 (by simp [hr2])), h1]

theorem groupFold_shape (object_type object_name : String) :
    ∀ (rs : List Row) (o : IdfObject) (s : UpdateStats),
      objShape ((rs.foldl (applyRow object_type object_name) (o, s)).1) =
        objShape o := by
  intro rs
  induction rs with
  | nil => intro o s; rfl
  | cons r rest ih =>
    intro o s
    rw [List.foldl_cons]
    cases hres : applyRow object_type object_name (o, s) r with
    | mk o1 s1 =>
      have h1 : objShape o1 = objShape o := by
        have := applyRow_shape object_type object_name o s r
        rw [hres] at this
        exact this
      rw [ih o1 s1, h1]

theorem groupFold_stable_noop (object_type object_name : String) :
    ∀ (rs : List Row) (o : IdfObject) (s : UpdateStats),
      (∀ r ∈ rs, rowStable o r) →
      ((rs.foldl (applyRow object_type object_name) (o, s)).1 = o ∧
       (rs.foldl (applyRow object_type object_name) (o, s)).2.successful_updates =
         s.successful_updates ∧
       (rs.foldl (applyRow object_type object_name) (o, s)).2.total_updates =
         s.total_updates ∧
       (rs.foldl (applyRow object_type object_name) (o, s)).2.updated_objects =
         s.updated_objects) := by
  intro rs
  induction rs with
  | nil => intro o s _; exact ⟨rfl, rfl, rfl, rfl⟩
  | cons r rest ih =>
    intro o s hst
    rw [List.foldl_cons]
    obtain ⟨ho, hsu, hto, hup⟩ :=
      applyRow_of_stable object_type object_name s (hst r (by simp))
    cases hres : applyRow object_type object_name (o, s) r with
    | mk o1 s1 =>
      rw [hres] at ho hsu hto hup
      simp only at ho hsu hto hup
      rw [ho]
      obtain ⟨io, isu, ito, iup⟩ := ih o s1 (fun r2 hr2 => hst r2 (by simp [hr2]))
      exact ⟨io, isu.trans hsu, ito.trans hto, iup.trans hup⟩

theorem groupFold_preserve_stable (object_type object_name : String) {r : Row} :
    ∀ (rs : List Row) (o : IdfObject) (s : UpdateStats),
      (∀ r2 ∈ rs, r2.fieldName ≠ r.fieldName) →
      rowStable o r →
      rowStable ((rs.foldl (applyRow object_type object_name) (o, s)).1) r := by
  intro rs
  induction rs with
  | nil => intro o s _ hst; exact hst
  | cons r2 rest ih =>
    intro o s hfn hst
    rw [List.foldl_cons]
    cases hres : applyRow object_type object_name (o, s) r2 with
    | mk o1 s1 =>
      have h1 : rowStable o1 r := by
        have := applyRow_preserve_stable object_type object_name s
          (hfn r2 (by simp)) hst
        rw [hres] at this
        exact this
      exact ih o1 s1 (fun r3 hr3 => hfn r3 (by simp [hr3])) h1

theorem groupFold_self_stable (object_type object_name : String) :
    ∀ (rs : List Row) (o : IdfObject) (s : UpdateStats),
      (rs.map Row.fieldName).Nodup →
      ∀ r ∈ rs, rowStable ((rs.foldl (applyRow object_type object_name) (o, s)).1) r := by
  intro rs
  induction rs with
  | nil => intro o s _ r hr; cases hr
  | cons r2 rest ih =>
    intro o s hnd r hr
    rw [List.map_cons, List.nodup_cons] at hnd
    rw [List.foldl_cons]
    cases hres : applyRow object_type object_name (o, s) r2 with
    | mk o1 s1 =>
      cases hr with
      | head =>
        have h1 : rowStable o1 r2 := by
          have := applyRow_self_stable object_type object_name o s r2
          rw [hres] at this
          exact this
        refine groupFold_preserve_stable object_type object_name rest o1 s1 ?_ h1
        intro r3 hr3 heq
        exact hnd.1 (by
          rw [← heq]
          exact List.mem_map.mpr ⟨r3, hr3, rfl⟩)
      | tail _ hmem => exact ih o1 s1 hnd.2 r hmem

/-! ## Lemmas about `processGroup` and the fold over groups -/

theorem processGroup_noop (object_type : String) {objs : List IdfObject}
    (s : UpdateStats) {g : String × List Row}
    (hnames : ∀ r ∈ g.2, r.objectName = g.1)
    (hst : ∀ r ∈ g.2, listRowStable objs r) :
    (processGroup object_type (objs, s) g).1 = objs ∧
    (processGroup object_type (objs, s) g).2.successful_updates =
      s.successful_updates ∧
    (processGroup object_type (objs, s) g).2.total_updates = s.total_updates ∧
    (processGroup object_type (objs, s) g).2.updated_objects =
      s.updated_objects := by
  cases hfm : findMatch objs g.1 with
  | none => simp [processGroup, hfm]
  | some p =>
    cases p with
    | mk k o =>
      have hrowsStable : ∀ r ∈ g.2, rowStable o r := by
        intro r hr
        have := hst r hr
        have hn : r.objectName = g.1 := hnames r hr
        exact this k o (by rw [hn]; exact hfm)
      obtain ⟨ho, hsu, hto, hup⟩ :=
        groupFold_stable_noop object_type g.1 g.2 o s hrowsStable
      cases hres : g.2.foldl (applyRow object_type g.1) (o, s) with
      | mk o1 s1 =>
        rw [hres] at ho hsu hto hup
        simp only at ho hsu hto hup
        have hget : objs[k]? = some o := (findMatch_spec hfm).1
        have hset : objs.set k o1 = objs := by
          rw [ho]
          exact set_getElem?_self hget
        simp only [processGroup, hfm, hres]
        exact ⟨hset, hsu, hto, hup⟩

theorem processGroup_shape (object_type : String) (objs : List IdfObject)
    (s : UpdateStats) (g : String × List Row) :
    shapeEq (processGroup object_type (objs, s) g).1 objs := by
  cases hfm : findMatch objs g.1 with
  | none => simp [processGroup, hfm, shapeEq]
  | some p =>
    cases p with
    | mk k o =>
      cases hres : g.2.foldl (applyRow object_type g.1) (o, s) with
      | mk o1 s1 =>
        simp only [processGroup, hfm, hres]
        unfold shapeEq
        rw [List.map_set]
        have hsh : objShape o1 = objShape o := by
          have := groupFold_shape object_type g.1 g.2 o s
          rw [hres] at this
          exact this
        rw [hsh]
        apply set_getElem?_self
        rw [List.getElem?_map, (findMatch_spec hfm).1]
        rfl

theorem processGroup_self_stable (object_type : String) {objs : List IdfObject}
    (s : UpdateStats) {g : String × List Row}
    (hnames : ∀ r ∈ g.2, r.objectName = g.1)
    (hnd : (g.2.map Row.fieldName).Nodup)
    (hnn : ∀ r ∈ g.2, ¬ r.fieldName = "Name") :
    ∀ r ∈ g.2, listRowStable (processGroup object_type (objs, s) g).1 r := by
  intro r hr
  cases hfm : findMatch objs g.1 with
  | none =>
    simp only [processGroup, hfm]
    intro k2 o2 hfm2
    rw [hnames r hr, hfm] at hfm2
    cases hfm2
  | some p =>
    cases p with
    | mk k o =>
      cases hres : g.2.foldl (applyRow object_type g.1) (o, s) with
      | mk o1 s1 =>
        simp only [processGroup, hfm, hres]
        intro k2 o2 hfm2
        have hnameseq : (objs.set k o1).map IdfObject.getName =
            objs.map IdfObject.getName := by
          have hname1 : o1.getName = o.getName := by
            have := groupFold_getName object_type g.1 g.2 o s hnn
            rw [hres] at this
            exact this
          rw [List.map_set, hname1]
          apply set_getElem?_self
          rw [List.getElem?_map, (findMatch_spec hfm).1]
          rfl
        have hfst := findMatch_congr_names (n := r.objectName) hnameseq
        rw [hfm2, hnames r hr, hfm] at hfst
        simp only [Option.map_some'] at hfst
        have hk2 : k2 = k := by simpa using hfst
        subst hk2
        have hlt : k2 < objs.length := by
          have := (findMatch_spec hfm).1
          exact (List.getElem?_eq_some_iff.mp this).1
        have hgetset : (objs.set k2 o1)[k2]? = some o1 :=
          List.getElem?_set_eq_of_lt o1 hlt
        have ho2 : o2 = o1 := by
          have := (findMatch_spec hfm2).1
          rw [hgetset] at this
          cases this
          rfl
        subst ho2
        have hx := groupFold_self_stable object_type g.1 g.2 o s hnd r hr
        rw [hres] at hx
        exact hx

theorem processGroup_preserve_stable (object_type : String)
    {objs : List IdfObject} (s : UpdateStats) {g : String × List Row} {r2 : Row}
    (_hnames : ∀ r ∈ g.2, r.objectName = g.1)
    (hnn : ∀ r ∈ g.2, ¬ r.fieldName = "Name")
    (hdisj : g.1 ≠ r2.objectName ∨ ∀ r ∈ g.2, r.fieldName ≠ r2.fieldName)
    (hst : listRowStable objs r2) :
    listRowStable (processGroup object_type (objs, s) g).1 r2 := by
  cases hfm : findMatch objs g.1 with
  | none => simpa [processGroup, hfm] using hst
  | some p =>
    cases p with
    | mk k o =>
      cases hres : g.2.foldl (applyRow object_type g.1) (o, s) with
      | mk o1 s1 =>
        simp only [processGroup, hfm, hres]
        intro k2 o2 hfm2
        have hlt : k < objs.length := by
          have := (findMatch_spec hfm).1
          exact (List.getElem?_eq_some_iff.mp this).1
        have hnameseq : (objs.set k o1).map IdfObject.getName =
            objs.map IdfObject.getName := by
          have hname1 : o1.getName = o.getName := by
            have := groupFold_getName object_type g.1 g.2 o s hnn
            rw [hres] at this
            exact this
          rw [List.map_set, hname1]
          apply set_getElem?_self
          rw [List.getElem?_map, (findMatch_spec hfm).1]
          rfl
        have hfst := findMatch_congr_names (n := r2.objectName) hnameseq
        rw [hfm2] at hfst
        cases hfm0 : findMatch objs r2.objectName with
        | none => rw [hfm0] at hfst; simp at hfst
        | some q =>
          cases q with
          | mk k0 o0 =>
            rw [hfm0] at hfst
            simp only [Option.map_some'] at hfst
            have hk : k2 = k0 := by simpa using hfst
            subst hk
            have hst0 : rowStable o0 r2 := hst k2 o0 hfm0
            by_cases hkk : k2 = k
            · subst hkk
              have hoo : o0 = o := by
                have h1 := (findMatch_spec hfm0).1
                have h2 := (findMatch_spec hfm).1
                rw [h1] at h2
                cases h2
                rfl
              have hgn : g.1 = r2.objectName := by
                have h1 := (findMatch_spec hfm).2
                have h2 := (findMatch_spec hfm0).2
                rw [hoo] at h2
                rw [h1] at h2
                exact Option.some.inj h2
              have hfns : ∀ r ∈ g.2, r.fieldName ≠ r2.fieldName := by
                cases hdisj with
                | inl h => exact absurd hgn h
                | inr h => exact h
              have ho2 : o2 = o1 := by
                have := (findMatch_spec hfm2).1
                rw [List.getElem?_set_eq_of_lt o1 hlt] at this
                cases this
                rfl
              subst ho2
              have hsr : rowStable o r2 := by rw [← hoo]; exact hst0
              have hx := groupFold_preserve_stable object_type g.1 g.2 o s hfns hsr
              rw [hres] at hx
              exact hx
            · have ho2 : o2 = o0 := by
                have h1 := (findMatch_spec hfm2).1
                rw [List.getElem?_set_ne (fun h => hkk h.symm)] at h1
                have h2 := (findMatch_spec hfm0).1
                rw [h1] at h2
                cases h2
                rfl
              subst ho2
              exact hst0

theorem groupsFold_shape (object_type : String) :
    ∀ (gs : List (String × List Row)) (objs : List IdfObject) (s : UpdateStats),
      shapeEq ((gs.foldl (processGroup object_type) (objs, s)).1) objs := by
  intro gs
  induction gs with
  | nil => intro objs s; rfl
  | cons g rest ih =>
    intro objs s
    rw [List.foldl_cons]
    cases hres : processGroup object_type (objs, s) g with
    | mk objs1 s1 =>
      have h1 : shapeEq objs1 objs := by
        have := processGroup_shape object_type objs s g
        rw [hres] at this
        exact this
      unfold shapeEq at h1 ⊢
      rw [ih objs1 s1, h1]

theorem groupsFold_noop (object_type : String) :
    ∀ (gs : List (String × List Row)) (objs : List IdfObject) (s : UpdateStats),
      (∀ g ∈ gs, ∀ r ∈ g.2, r.objectName = g.1) →
      (∀ g ∈ gs, ∀ r ∈ g.2, listRowStable objs r) →
      ((gs.foldl (processGroup object_type) (objs, s)).1 = objs ∧
       (gs.foldl (processGroup object_type) (objs, s)).2.successful_updates =
         s.successful_updates ∧
       (gs.foldl (processGroup object_type) (objs, s)).2.total_updates =
         s.total_updates ∧
       (gs.foldl (processGroup object_type) (objs, s)).2.updated_objects =
         s.updated_objects) := by
  intro gs
  induction gs with
  | nil => intro objs s _ _; exact ⟨rfl, rfl, rfl, rfl⟩
  | cons g rest ih =>
    intro objs s hnames hst
    rw [List.foldl_cons]
    obtain ⟨ho, hsu, hto, hup⟩ := processGroup_noop object_type s
      (hnames g (by simp)) (hst g (by simp))
    cases hres : processGroup object_type (objs, s) g with
    | mk objs1 s1 =>
      rw [hres] at ho hsu hto hup
      simp only at ho hsu hto hup
      rw [ho]
      obtain ⟨io, isu, ito, iup⟩ := ih objs s1
        (fun g2 hg2 => hnames g2 (by simp [hg2]))
        (fun g2 hg2 => hst g2 (by simp [hg2]))
      exact ⟨io, isu.trans hsu, ito.trans hto, iup.trans hup⟩

theorem groupsFold_preserve_stable (object_type : String) {r2 : Row} :
    ∀ (gs : List (String × List Row)) (objs : List IdfObject) (s : UpdateStats),
      (∀ g ∈ gs, ∀ r ∈ g.2, r.objectName = g.1) →
      (∀ g ∈ gs, ∀ r ∈ g.2, ¬ r.fieldName = "Name") →
      (∀ g ∈ gs, g.1 ≠ r2.objectName ∨ ∀ r ∈ g.2, r.fieldName ≠ r2.fieldName) →
      listRowStable objs r2 →
      listRowStable ((gs.foldl (processGroup object_type) (objs, s)).1) r2 := by
  intro gs
  induction gs with
  | nil => intro objs s _ _ _ hst; exact hst
  | cons g rest ih =>
    intro objs s hnames hnn hdisj hst
    rw [List.foldl_cons]
    cases hres : processGroup object_type (objs, s) g with
    | mk objs1 s1 =>
      have h1 : listRowStable objs1 r2 := by
        have := processGroup_preserve_stable object_type s
          (hnames g (by simp)) (hnn g (by simp)) (hdisj g (by simp)) hst
        rw [hres] at this
        exact this
      exact ih objs1 s1
        (fun g2 hg2 => hnames g2 (by simp [hg2]))
        (fun g2 hg2 => hnn g2 (by simp [hg2]))
        (fun g2 hg2 => hdisj g2 (by simp [hg2])) h1

theorem groupsFold_self_stable (object_type : String) :
    ∀ (gs : List (String × List Row)) (objs : List IdfObject) (s : UpdateStats),
      (∀ g ∈ gs, ∀ r ∈ g.2, r.objectName = g.1) →
      (gs.map Prod.fst).Nodup →
      (∀ g ∈ gs, (g.2.map Row.fieldName).Nodup) →
      (∀ g ∈ gs, ∀ r ∈ g.2, ¬ r.fieldName = "Name") →
      ∀ g ∈ gs, ∀ r ∈ g.2,
        listRowStable ((gs.foldl (processGroup object_type) (objs, s)).1) r := by
  intro gs
  induction gs with
  | nil => intro objs s _ _ _ _ g hg; cases hg
  | cons g0 rest ih =>
    intro objs s hnames hknd hfnd hnnn g hg r hr
    rw [List.map_cons, List.nodup_cons] at hknd
    rw [List.foldl_cons]
    cases hres : processGroup object_type (objs, s) g0 with
    | mk objs1 s1 =>
      cases hg with
      | head =>
        have h1 : listRowStable objs1 r := by
          have hx := @processGroup_self_stable object_type objs s g0
            (hnames g0 (by simp)) (hfnd g0 (by simp)) (hnnn g0 (by simp)) r hr
          rw [hres] at hx
          exact hx
        refine groupsFold_preserve_stable object_type rest objs1 s1
          (fun g2 hg2 => hnames g2 (by simp [hg2]))
          (fun g2 hg2 => hnnn g2 (by simp [hg2])) ?_ h1
        intro g2 hg2
        left
        rw [hnames g0 (by simp) r hr]
        intro heq
        exact hknd.1 (by
          rw [← heq]
          exact List.mem_map.mpr ⟨g2, hg2, rfl⟩)
      | tail _ hmem =>
        exact ih objs1 s1 (fun g2 hg2 => hnames g2 (by simp [hg2])) hknd.2
          (fun g2 hg2 => hfnd g2 (by simp [hg2]))
          (fun g2 hg2 => hnnn g2 (by simp [hg2])) g hmem r hr

/-! ## Lemmas about `groupByName` -/

theorem mem_insertSorted {s a : String} :
    ∀ {l : List String}, a ∈ insertSorted s l ↔ a = s ∨ a ∈ l := by
  intro l
  induction l with
  | nil => simp [insertSorted]
  | cons t rest ih =>
    by_cases h : strLt s t
    · simp [insertSorted, h]
    · simp only [insertSorted, h, Bool.false_eq_true, if_false, List.mem_cons, ih]
      tauto

theorem nodup_insertSorted {s : String} :
    ∀ {l : List String}, s ∉ l → l.Nodup → (insertSorted s l).Nodup := by
  intro l
  induction l with
  | nil => intro _ _; simp [insertSorted]
  | cons t rest ih =>
    intro hs hnd
    rw [List.nodup_cons] at hnd
    by_cases h : strLt s t
    · simp only [insertSorted, h, if_true]
      rw [List.nodup_cons, List.nodup_cons]
      refine ⟨?_, hnd⟩
      intro hmem
      exact hs (by simpa using hmem)
    · simp only [insertSorted, h, Bool.false_eq_true, if_false]
      rw [List.nodup_cons]
      constructor
      · intro hmem
        rw [mem_insertSorted] at hmem
        cases hmem with
        | inl heq => exact hs (by simp [heq])
        | inr hmem => exact hnd.1 hmem
      · exact ih (fun hm => hs (by simp [hm])) hnd.2

theorem mem_sortKeys {a : String} :
    ∀ {l : List String}, a ∈ sortKeys l ↔ a ∈ l := by
  intro l
  induction l with
  | nil => simp [sortKeys]
  | cons t rest ih =>
    show a ∈ insertSorted t (sortKeys rest) ↔ _
    rw [mem_insertSorted, ih]
    simp

theorem nodup_sortKeys : ∀ {l : List String}, l.Nodup → (sortKeys l).Nodup := by
  intro l
  induction l with
  | nil => intro _; simp [sortKeys]
  | cons t rest ih =>
    intro hnd
    rw [List.nodup_cons] at hnd
    exact nodup_insertSorted (fun hm => hnd.1 (mem_sortKeys.mp hm)) (ih hnd.2)

theorem mem_dedupKeys :
    ∀ {l : List String} (a : String), a ∈ dedupKeys l ↔ a ∈ l := by
  intro l
  induction l with
  | nil => intro a; simp [dedupKeys]
  | cons k rest ih =>
    intro a
    by_cases h : (dedupKeys rest).contains k
    · rw [show dedupKeys (k :: rest) =
        if (dedupKeys rest).contains k then dedupKeys rest
        else k :: dedupKeys rest from rfl, if_pos h]
      rw [ih a, List.mem_cons]
      constructor
      · intro hm; exact Or.inr hm
      · intro hm
        cases hm with
        | inl heq => rw [heq]; exact (ih k).mp (by simpa using h)
        | inr hm => exact hm
    · rw [show dedupKeys (k :: rest) =
        if (dedupKeys rest).contains k then dedupKeys rest
        else k :: dedupKeys rest from rfl, if_neg h]
      rw [List.mem_cons, List.mem_cons, ih a]

theorem nodup_dedupKeys : ∀ {l : List String}, (dedupKeys l).Nodup := by
  intro l
  induction l with
  | nil => simp [dedupKeys]
  | cons k rest ih =>
    by_cases h : (dedupKeys rest).contains k
    · rw [show dedupKeys (k :: rest) =
        if (dedupKeys rest).contains k then dedupKeys rest
        else k :: dedupKeys rest from rfl, if_pos h]
      exact ih
    · rw [show dedupKeys (k :: rest) =
        if (dedupKeys rest).contains k then dedupKeys rest
        else k :: dedupKeys rest from rfl, if_neg h]
      rw [List.nodup_cons]
      exact ⟨by simpa using h, ih⟩

theorem groupByName_row_names {rows : List Row} :
    ∀ g ∈ groupByName rows, ∀ r ∈ g.2, r.objectName = g.1 := by
  intro g hg r hr
  obtain ⟨k, _, hk⟩ := List.mem_map.mp hg
  rw [← hk] at hr
  simp only at hr
  have := List.mem_filter.mp hr
  have h2 := this.2
  simp at h2
  rw [← hk]
  exact h2

theorem groupByName_keys_nodup {rows : List Row} :
    ((groupByName rows).map Prod.fst).Nodup := by
  unfold groupByName
  rw [List.map_map]
  have : (Prod.fst ∘ fun k => (k, rows.filter (fun r => r.objectName == k))) =
      fun k : String => k := rfl
  rw [this]
  simpa using nodup_sortKeys nodup_dedupKeys

theorem groupByName_complete {rows : List Row} {r : Row} (hr : r ∈ rows) :
    ∃ g ∈ groupByName rows, g.1 = r.objectName ∧ r ∈ g.2 := by
  refine ⟨(r.objectName, rows.filter (fun r2 => r2.objectName == r.objectName)),
    ?_, rfl, ?_⟩
  · unfold groupByName
    apply List.mem_map.mpr
    refine ⟨r.objectName, ?_, rfl⟩
    rw [mem_sortKeys, mem_dedupKeys]
    exact List.mem_map.mpr ⟨r, hr, rfl⟩
  · exact List.mem_filter.mpr ⟨hr, by simp⟩

theorem pairs_nodup_fieldNames {k : String} :
    ∀ {l : List Row}, (l.map rowPair).Nodup →
      (∀ r ∈ l, r.objectName = k) → (l.map Row.fieldName).Nodup := by
  intro l
  induction l with
  | nil => intro _ _; simp
  | cons r rest ih =>
    intro hnd hk
    rw [List.map_cons, List.nodup_cons] at hnd ⊢
    constructor
    · intro hmem
      obtain ⟨r2, hr2, hfn⟩ := List.mem_map.mp hmem
      apply hnd.1
      apply List.mem_map.mpr
      refine ⟨r2, hr2, ?_⟩
      unfold rowPair
      rw [hfn, hk r2 (by simp [hr2]), hk r (by simp)]
    · exact ih hnd.2 (fun r2 hr2 => hk r2 (by simp [hr2]))

theorem groupByName_group_pairs_nodup {rows : List Row}
    (hnd : (rows.map rowPair).Nodup) :
    ∀ g ∈ groupByName rows, (g.2.map rowPair).Nodup := by
  intro g hg
  obtain ⟨k, _, hk⟩ := List.mem_map.mp hg
  rw [← hk]
  simp only
  exact List.Nodup.sublist ((List.filter_sublist rows).map rowPair) hnd

theorem groupByName_group_fieldNames_nodup {rows : List Row}
    (hnd : (rows.map rowPair).Nodup) :
    ∀ g ∈ groupByName rows, (g.2.map Row.fieldName).Nodup := by
  intro g hg
  exact pairs_nodup_fieldNames (groupByName_group_pairs_nodup hnd g hg)
    (groupByName_row_names g hg)

/-! ## Lemmas about `lookupType` and `setType` -/

theorem setType_keys (entries : List (String × List IdfObject)) (t : String)
    (objs : List IdfObject) :
    (setType entries t objs).map Prod.fst = entries.map Prod.fst := by
  induction entries with
  | nil => rfl
  | cons p rest ih =>
    rw [show setType (p :: rest) t objs =
        (if p.1 == t then (p.1, objs) else p) :: setType rest t objs from rfl]
    rw [List.map_cons, List.map_cons, ih]
    by_cases h : p.1 == t
    · rw [if_pos h]
    · rw [if_neg h]

theorem lookupType_cons (q : String × List IdfObject)
    (l : List (String × List IdfObject)) (t2 : String) :
    lookupType (q :: l) t2 = if q.1 == t2 then some q.2 else lookupType l t2 := by
  by_cases h : q.1 == t2
  · simp [lookupType, List.find?_cons, h]
  · simp [lookupType, List.find?_cons, h]

theorem lookupType_setType (entries : List (String × List IdfObject))
    (t t2 : String) (objs : List IdfObject) :
    lookupType (setType entries t objs) t2 =
      (lookupType entries t2).map (fun old => if t2 == t then objs else old) := by
  induction entries with
  | nil => rfl
  | cons p rest ih =>
    rw [show setType (p :: rest) t objs =
        (if p.1 == t then (p.1, objs) else p) :: setType rest t objs from rfl]
    rw [lookupType_cons, lookupType_cons]
    by_cases hpt : p.1 == t
    · have hp : p.1 = t := by simpa using hpt
      simp only [hpt, if_true]
      by_cases hq : p.1 == t2
      · have hq2 : p.1 = t2 := by simpa using hq
        have ht2 : (t2 == t) = true := by simp [← hq2, hp]
        simp [hq, ht2]
      · simp [hq, ih]
    · simp only [hpt, if_false]
      by_cases hq : p.1 == t2
      · have hq2 : p.1 = t2 := by simpa using hq
        have ht2 : (t2 == t) = false := by
          rw [← hq2]
          simpa using hpt
        simp [hq, ht2]
      · simp [hq, ih]

theorem setType_no_key {t : String} {objs : List IdfObject} :
    ∀ {entries : List (String × List IdfObject)},
      (∀ p ∈ entries, ¬ p.1 = t) → setType entries t objs = entries := by
  intro entries
  induction entries with
  | nil => intro _; rfl
  | cons p rest ih =>
    intro h
    rw [show setType (p :: rest) t objs =
        (if p.1 == t then (p.1, objs) else p) :: setType rest t objs from rfl]
    have hp : ¬ ((p.1 == t) = true) := by
      simpa using h p (by simp)
    rw [if_neg hp]
    rw [ih (fun q hq => h q (by simp [hq]))]

theorem setType_self {t : String} {objs : List IdfObject} :
    ∀ {entries : List (String × List IdfObject)},
      (entries.map Prod.fst).Nodup → lookupType entries t = some objs →
      setType entries t objs = entries := by
  intro entries
  induction entries with
  | nil => intro _ h; simp [lookupType] at h
  | cons p rest ih =>
    intro hnd hlk
    rw [List.map_cons, List.nodup_cons] at hnd
    rw [lookupType_cons] at hlk
    rw [show setType (p :: rest) t objs =
        (if p.1 == t then (p.1, objs) else p) :: setType rest t objs from rfl]
    by_cases hpt : p.1 == t
    · have hp : p.1 = t := by simpa using hpt
      rw [if_pos hpt] at hlk
      have hobj : p.2 = objs := Option.some.inj hlk
      rw [if_pos hpt]
      have hrest : setType rest t objs = rest := by
        apply setType_no_key
        intro q hq heq
        exact hnd.1 (by
          rw [hp, ← heq]
          exact List.mem_map.mpr ⟨q, hq, rfl⟩)
      rw [hrest, ← hobj]
    · rw [if_neg hpt] at hlk
      rw [if_neg hpt]
      rw [ih hnd.2 hlk]

/-! ## Sheet-level and run-level stability -/

theorem groupByName_rows_sub {rows : List Row} :
    ∀ g ∈ groupByName rows, ∀ r ∈ g.2, r ∈ rows := by
  intro g hg r hr
  obtain ⟨k, _, hk⟩ := List.mem_map.mp hg
  rw [← hk] at hr
  exact List.mem_of_mem_filter hr

theorem allEditKeys_append (l1 l2 : List Sheet) :
    allEditKeys (l1 ++ l2) = allEditKeys l1 ++ allEditKeys l2 := by
  unfold allEditKeys
  rw [List.filter_append, List.flatMap_append]

theorem allEditKeys_cons_not_all {sh : Sheet} (hn : ¬ sh.name = "ALL")
    (rest : List Sheet) :
    allEditKeys (sh :: rest) =
      sh.rows.map (fun r => (pyStrip sh.name, r.objectName, r.fieldName)) ++
        allEditKeys rest := by
  unfold allEditKeys
  rw [List.filter_cons, if_pos (by simpa using hn), List.flatMap_cons]

theorem allEditKeys_cons_all {sh : Sheet} (hn : sh.name = "ALL")
    (rest : List Sheet) :
    allEditKeys (sh :: rest) = allEditKeys rest := by
  unfold allEditKeys
  rw [List.filter_cons, if_neg (by simpa using hn)]

theorem processSheet_keys (idf : Idf) (s : UpdateStats) (sh : Sheet) :
    (processSheet (idf, s) sh).1.idfobjects.map Prod.fst =
      idf.idfobjects.map Prod.fst := by
  by_cases hall : sh.name == "ALL"
  · simp [processSheet, hall]
  · cases hlk : lookupType idf.idfobjects (pyStrip sh.name) with
    | none => simp [processSheet, hall, hlk]
    | some objs =>
      cases hres : (groupByName sh.rows).foldl (processGroup (pyStrip sh.name))
          (objs, s) with
      | mk objs1 s1 =>
        simp only [processSheet, hall, hlk, hres, Bool.false_eq_true, if_false]
        exact setType_keys idf.idfobjects (pyStrip sh.name) objs1

theorem processSheet_noop {idf : Idf} (s : UpdateStats) {sh : Sheet}
    (hnd : NodupKeys idf)
    (hst : ¬ sh.name = "ALL" → ∀ r ∈ sh.rows, keyStable idf (pyStrip sh.name) r) :
    (processSheet (idf, s) sh).1 = idf ∧
    (processSheet (idf, s) sh).2.successful_updates = s.successful_updates ∧
    (processSheet (idf, s) sh).2.total_updates = s.total_updates ∧
    (processSheet (idf, s) sh).2.updated_objects = s.updated_objects := by
  by_cases hall : sh.name == "ALL"
  · simp [processSheet, hall]
  · have hnall : ¬ sh.name = "ALL" := by simpa using hall
    cases hlk : lookupType idf.idfobjects (pyStrip sh.name) with
    | none => simp [processSheet, hall, hlk]
    | some objs =>
      have hstable : ∀ g ∈ groupByName sh.rows, ∀ r ∈ g.2, listRowStable objs r := by
        intro g hg r hr
        exact hst hnall r (groupByName_rows_sub g hg r hr) objs hlk
      obtain ⟨ho, hsu, hto, hup⟩ := groupsFold_noop (pyStrip sh.name)
        (groupByName sh.rows) objs s groupByName_row_names hstable
      cases hres : (groupByName sh.rows).foldl (processGroup (pyStrip sh.name))
          (objs, s) with
      | mk objs1 s1 =>
        rw [hres] at ho hsu hto hup
        simp only at ho hsu hto hup
        simp only [processSheet, hall, hlk, hres, Bool.false_eq_true, if_false]
        refine ⟨?_, hsu, hto, hup⟩
        rw [ho, setType_self hnd hlk]

theorem processSheet_preserve {idf : Idf} (s : UpdateStats) {sh : Sheet}
    {t2 : String} {r2 : Row}
    (hnn : ∀ r ∈ sh.rows, ¬ r.fieldName = "Name")
    (hdisj : ∀ r ∈ sh.rows, ¬ (pyStrip sh.name = t2 ∧
      r.objectName = r2.objectName ∧ r.fieldName = r2.fieldName))
    (hst : keyStable idf t2 r2) :
    keyStable (processSheet (idf, s) sh).1 t2 r2 := by
  by_cases hall : sh.name == "ALL"
  · simpa [processSheet, hall] using hst
  · cases hlk : lookupType idf.idfobjects (pyStrip sh.name) with
    | none => simpa [processSheet, hall, hlk] using hst
    | some objs =>
      cases hres : (groupByName sh.rows).foldl (processGroup (pyStrip sh.name))
          (objs, s) with
      | mk objs1 s1 =>
        simp only [processSheet, hall, hlk, hres, Bool.false_eq_true, if_false]
        intro objs2 hlk2
        simp only [lookupType_setType] at hlk2
        cases hlk0 : lookupType idf.idfobjects t2 with
        | none => rw [hlk0] at hlk2; cases hlk2
        | some objs0 =>
          rw [hlk0] at hlk2
          simp only [Option.map_some'] at hlk2
          by_cases ht : t2 == pyStrip sh.name
          · have ht2 : t2 = pyStrip sh.name := by simpa using ht
            rw [if_pos ht] at hlk2
            cases hlk2
            have hobjs0 : objs0 = objs := by
              rw [ht2] at hlk0
              rw [hlk0] at hlk
              exact Option.some.inj hlk
            have hbase : listRowStable objs r2 := by
              rw [← hobjs0]
              exact hst objs0 hlk0
            have hx := groupsFold_preserve_stable (pyStrip sh.name)
              (groupByName sh.rows) objs s groupByName_row_names
              (fun g2 hg2 r3 hr3 => hnn r3 (groupByName_rows_sub g2 hg2 r3 hr3))
              ?_ hbase
            · rw [hres] at hx
              exact hx
            · intro g hg
              by_cases hgn : g.1 = r2.objectName
              · right
                intro r hr heq
                refine hdisj r (groupByName_rows_sub g hg r hr)
                  ⟨ht2.symm, ?_, heq⟩
                rw [groupByName_row_names g hg r hr, hgn]
              · left
                exact hgn
          · rw [if_neg ht] at hlk2
            have hoo : objs0 = objs2 := Option.some.inj hlk2
            rw [← hoo]
            exact hst objs0 hlk0

theorem processSheet_stabilize {idf : Idf} (s : UpdateStats) {sh : Sheet}
    (hpairs : (sh.rows.map rowPair).Nodup)
    (hnn : ∀ r ∈ sh.rows, ¬ r.fieldName = "Name")
    (hnall : ¬ sh.name = "ALL") :
    ∀ r ∈ sh.rows, keyStable (processSheet (idf, s) sh).1 (pyStrip sh.name) r := by
  intro r hr
  have hall : ¬ (sh.name == "ALL") = true := by simpa using hnall
  cases hlk : lookupType idf.idfobjects (pyStrip sh.name) with
  | none =>
    simp only [processSheet, hall, hlk, Bool.false_eq_true, if_false]
    intro objs2 hlk2
    rw [hlk] at hlk2
    cases hlk2
  | some objs =>
    cases hres : (groupByName sh.rows).foldl (processGroup (pyStrip sh.name))
        (objs, s) with
    | mk objs1 s1 =>
      simp only [processSheet, hall, hlk, hres, Bool.false_eq_true, if_false]
      intro objs2 hlk2
      simp only [lookupType_setType, hlk, Option.map_some'] at hlk2
      rw [if_pos (by simp)] at hlk2
      cases hlk2
      obtain ⟨g, hg, hgk, hgr⟩ := groupByName_complete hr
      have hx := groupsFold_self_stable (pyStrip sh.name) (groupByName sh.rows)
        objs s groupByName_row_names groupByName_keys_nodup
        (groupByName_group_fieldNames_nodup hpairs)
        (fun g2 hg2 r3 hr3 => hnn r3 (groupByName_rows_sub g2 hg2 r3 hr3))
        g hg r hgr
      rw [hres] at hx
      exact hx

theorem updateFold_keys :
    ∀ (sheets : List Sheet) (idf : Idf) (s : UpdateStats),
      ((sheets.foldl processSheet (idf, s)).1).idfobjects.map Prod.fst =
        idf.idfobjects.map Prod.fst := by
  intro sheets
  induction sheets with
  | nil => intro idf s; rfl
  | cons sh rest ih =>
    intro idf s
    rw [List.foldl_cons]
    cases hps : processSheet (idf, s) sh with
    | mk idf1 s1 =>
      have h1 := processSheet_keys idf s sh
      rw [hps] at h1
      simp only at h1
      rw [ih idf1 s1, h1]

/-- The run is a no-op on a stable model: no overwrite ever fires, so the
model is returned unchanged and no successful update is recorded. -/
theorem updateFold_noop :
    ∀ (sheets : List Sheet) (idf : Idf) (s : UpdateStats),
      NodupKeys idf → allStable idf sheets →
      ((sheets.foldl processSheet (idf, s)).1 = idf ∧
       (sheets.foldl processSheet (idf, s)).2.successful_updates =
         s.successful_updates ∧
       (sheets.foldl processSheet (idf, s)).2.total_updates = s.total_updates ∧
       (sheets.foldl processSheet (idf, s)).2.updated_objects =
         s.updated_objects) := by
  intro sheets
  induction sheets with
  | nil => intro idf s _ _; exact ⟨rfl, rfl, rfl, rfl⟩
  | cons sh rest ih =>
    intro idf s hnd hstable
    rw [List.foldl_cons]
    obtain ⟨ho, hsu, hto, hup⟩ := processSheet_noop s hnd
      (fun hnall r hr => hstable sh (by simp) hnall r hr)
    cases hps : processSheet (idf, s) sh with
    | mk idf1 s1 =>
      rw [hps] at ho hsu hto hup
      simp only at ho hsu hto hup
      rw [ho]
      obtain ⟨io, isu, ito, iup⟩ := ih idf s1 hnd
        (fun sh2 hsh2 => hstable sh2 (by simp [hsh2]))
      exact ⟨io, isu.trans hsu, ito.trans hto, iup.trans hup⟩

/-- After one full run, every row of the edit table is stable on the
resulting model, provided the table carries no duplicate
(type, ObjectName, FieldName) identity and no processed row edits the
`Name` field itself (a Name edit renames its instance through the live
`obj.Name` read-through and re-routes later matching scans). -/
theorem updateFold_stabilize :
    ∀ (todo : List Sheet) (idf : Idf) (s : UpdateStats) (done : List Sheet),
      NodupKeys idf →
      (allEditKeys (done ++ todo)).Nodup →
      noNameEdits todo →
      allStable idf done →
      (allStable (todo.foldl processSheet (idf, s)).1 (done ++ todo) ∧
       NodupKeys (todo.foldl processSheet (idf, s)).1) := by
  intro todo
  induction todo with
  | nil =>
    intro idf s done hnd _ _ hstable
    simpa using ⟨hstable, hnd⟩
  | cons sh rest ih =>
    intro idf s done hnd hkeys hnonames hstable
    rw [List.foldl_cons]
    cases hps : processSheet (idf, s) sh with
    | mk idf1 s1 =>
      have hnd1 : NodupKeys idf1 := by
        unfold NodupKeys
        have h1 := processSheet_keys idf s sh
        rw [hps] at h1
        simp only at h1
        rw [h1]
        exact hnd
      have hstable1 : allStable idf1 (done ++ [sh]) := by
        intro sh2 hsh2 hnall2 r2 hr2
        rw [List.mem_append] at hsh2
        cases hsh2 with
        | inl hdone =>
          by_cases hall : sh.name = "ALL"
          · have : processSheet (idf, s) sh = (idf, s) := by
              simp [processSheet, hall]
            rw [this] at hps
            cases hps
            exact hstable sh2 hdone hnall2 r2 hr2
          · have hx := @processSheet_preserve idf s sh (pyStrip sh2.name) r2
              (hnonames sh (by simp) hall) ?_
              (hstable sh2 hdone hnall2 r2 hr2)
            · rw [hps] at hx
              exact hx
            · intro r hr ⟨hteq, hneq, hfeq⟩
              have hsplit : allEditKeys (done ++ sh :: rest) =
                  allEditKeys done ++
                    (sh.rows.map (fun r3 =>
                      (pyStrip sh.name, r3.objectName, r3.fieldName)) ++
                     allEditKeys rest) := by
                rw [allEditKeys_append, allEditKeys_cons_not_all hall]
              rw [hsplit] at hkeys
              rw [List.nodup_append] at hkeys
              have hdisj := hkeys.2.2
              have hmem1 : (pyStrip sh.name, r.objectName, r.fieldName) ∈
                  allEditKeys done := by
                rw [hteq, hneq, hfeq]
                unfold allEditKeys
                apply List.mem_flatMap.mpr
                refine ⟨sh2, ?_, ?_⟩
                · exact List.mem_filter.mpr ⟨hdone, by simpa using hnall2⟩
                · exact List.mem_map.mpr ⟨r2, hr2, rfl⟩
              have hmem2 : (pyStrip sh.name, r.objectName, r.fieldName) ∈
                  sh.rows.map (fun r3 =>
                    (pyStrip sh.name, r3.objectName, r3.fieldName)) ++
                    allEditKeys rest := by
                apply List.mem_append.mpr
                left
                exact List.mem_map.mpr ⟨r, hr, rfl⟩
              exact hdisj hmem1 hmem2
        | inr hsh =>
          have hsheq : sh2 = sh := by simpa using hsh
          subst hsheq
          have hpairs : (sh2.rows.map rowPair).Nodup := by
            have hsplit : allEditKeys (done ++ sh2 :: rest) =
                allEditKeys done ++
                  (sh2.rows.map (fun r3 =>
                    (pyStrip sh2.name, r3.objectName, r3.fieldName)) ++
                   allEditKeys rest) := by
              rw [allEditKeys_append, allEditKeys_cons_not_all hnall2]
            rw [hsplit] at hkeys
            rw [List.nodup_append] at hkeys
            rw [List.nodup_append] at hkeys
            have htriples := hkeys.2.1.1
            have : sh2.rows.map (fun r3 =>
                (pyStrip sh2.name, r3.objectName, r3.fieldName)) =
                (sh2.rows.map rowPair).map
                  (fun p => (pyStrip sh2.name, p)) := by
              rw [List.map_map]
              rfl
            rw [this] at htriples
            exact List.Nodup.of_map _ htriples
          have hx := @processSheet_stabilize idf s sh2 hpairs
            (hnonames sh2 (by simp) hnall2) hnall2 r2 hr2
          rw [hps] at hx
          exact hx
      have hkeys1 : (allEditKeys ((done ++ [sh]) ++ rest)).Nodup := by
        have : (done ++ [sh]) ++ rest = done ++ sh :: rest := by simp
        rw [this]
        exact hkeys
      have hres := ih idf1 s1 (done ++ [sh]) hnd1 hkeys1
        (fun sh2 hsh2 => hnonames sh2 (by simp [hsh2])) hstable1
      have : (done ++ [sh]) ++ rest = done ++ sh :: rest := by simp
      rw [this] at hres
      exact hres

/-! ## Claim C1 -/

/-- C1 (counterexample): the claimed consequent "applying the same edit
table a second time after a first successful application yields
successful_updates = 0" is false as stated: on `c1sheets` (two rows for the
same resolved field position with different Values) the first application
succeeds fully (failed_updates = 0, successful_updates = 2), yet the second
application again reports 2 successful updates, not 0. -/
theorem C1_counterexample :
    (update_idf_from_excel c1idf c1sheets).2.failed_updates = 0 ∧
    (update_idf_from_excel c1idf c1sheets).2.successful_updates = 2 ∧
    ¬ (update_idf_from_excel
        (update_idf_from_excel c1idf c1sheets).1 c1sheets).2.successful_updates
        = 0 := by
  refine ⟨by decide, by decide, by decide⟩

/-- The live `Name` read-through makes a Name-field edit re-route the
matching scan on a repeated run: on `nameEditIdf` the first pass applies
both edits (renaming the first instance from `C` to `B`), and the second
pass's group `B` then matches the RENAMED first instance instead of the
originally named one and applies one further successful update — even
though the edit identities are distinct and the type keys are unique.
Idempotence therefore genuinely fails for Name edits, which is why the
amended C1 statement excludes them. -/
theorem name_edit_reroutes_second_pass :
    NodupKeys nameEditIdf ∧
    (allEditKeys nameEditSheets).Nodup ∧
    (update_idf_from_excel nameEditIdf nameEditSheets).2.successful_updates
      = 2 ∧
    (update_idf_from_excel
      (update_idf_from_excel nameEditIdf nameEditSheets).1
      nameEditSheets).2.successful_updates = 1 := by
  refine ⟨by unfold NodupKeys; decide, by decide, by decide, by decide⟩

/-- C1 (amended): (a) any edit row whose Value, compared as text, equals
the matched instance's current value at the resolved field position leaves
the instance and every statistic unchanged and appends no UpdateRecord;
(b) consequently, for a model with distinct type keys and an edit table
with no duplicate (type, ObjectName, FieldName) row identity in which no
processed row edits the `Name` field itself, applying the same edit table
a second time after a first application yields successful_updates = 0.
(Both provisos are necessary: a repeated identity with two Values
re-applies on every pass, and a Name edit renames its instance through the
live `obj.Name` read-through, so the second pass's matching scan selects a
different instance and can apply further updates.) -/
theorem C1_amended_idempotence :
    (∀ (object_type object_name : String) (o : IdfObject) (s : UpdateStats)
        (r : Row) (fi : Nat) (v : String),
        o.fieldnames.findIdx? (fun fn => fn == r.fieldName) = some fi →
        o.obj[fi]? = some v → v = r.value →
        applyRow object_type object_name (o, s) r = (o, s)) ∧
    (∀ (idf : Idf) (sheets : List Sheet),
        NodupKeys idf → (allEditKeys sheets).Nodup →
        noNameEdits sheets →
        (update_idf_from_excel
          (update_idf_from_excel idf sheets).1 sheets).2.successful_updates
          = 0) := by
  constructor
  · intro object_type object_name o s r fi v h1 h2 hv
    simp [applyRow, h1, h2, hv]
  · intro idf sheets hnd hkeys hnonames
    unfold update_idf_from_excel
    have hstab := updateFold_stabilize sheets idf initStats [] hnd
      (by simpa using hkeys) hnonames (by intro sh hsh; cases hsh)
    simp only [List.nil_append] at hstab
    have hnoop := updateFold_noop sheets
      (sheets.foldl processSheet (idf, initStats)).1 initStats
      hstab.2 hstab.1
    rw [hnoop.2.1]
    rfl

/-- C1 (witness): the amended theorem applied at a concrete equal-value row
and at a concrete well-formed model and edit table. -/
theorem C1_amended_idempotence_witness :
    applyRow "ZONE" "Z"
        (⟨["key", "Name", "Width"], ["ZONE", "Z", "10"]⟩, initStats)
        ⟨"Z", "Width", "10"⟩ =
      (⟨["key", "Name", "Width"], ["ZONE", "Z", "10"]⟩, initStats) ∧
    (update_idf_from_excel
      (update_idf_from_excel c1idf
        [⟨"ZONE", [⟨"Z", "Width", "12"⟩]⟩]).1
      [⟨"ZONE", [⟨"Z", "Width", "12"⟩]⟩]).2.successful_updates = 0 := by
  constructor
  · exact C1_amended_idempotence.1 "ZONE" "Z"
      ⟨["key", "Name", "Width"], ["ZONE", "Z", "10"]⟩ initStats
      ⟨"Z", "Width", "10"⟩ 2 "10" (by decide) (by decide) (by decide)
  · exact C1_amended_idempotence.2 c1idf
      [⟨"ZONE", [⟨"Z", "Width", "12"⟩]⟩]
      (by unfold NodupKeys; decide) (by decide)
      (by unfold noNameEdits; decide)

/-! ## Claims C2 and C3 -/

theorem groupsFold_all_unmatched (object_type : String) :
    ∀ (gs : List (String × List Row)) (objs : List IdfObject) (s : UpdateStats),
      (∀ g ∈ gs, findMatch objs g.1 = none) →
      gs.foldl (processGroup object_type) (objs, s) =
        (objs, { s with
                   failed_updates := s.failed_updates + gs.length,
                   warnings := s.warnings ++
                     gs.map (fun g => objectNotFoundWarning g.1 object_type) }) := by
  intro gs
  induction gs with
  | nil =>
    intro objs s _
    simp
  | cons g rest ih =>
    intro objs s hnom
    rw [List.foldl_cons]
    rw [show processGroup object_type (objs, s) g =
        (objs, { s with
                   warnings := s.warnings ++
                     [objectNotFoundWarning g.1 object_type],
                   failed_updates := s.failed_updates + 1 }) from by
      simp [processGroup, hnom g (by simp)]]
    rw [ih objs _ (fun g2 hg2 => hnom g2 (by simp [hg2]))]
    simp [Nat.add_assoc, Nat.add_comm 1 rest.length]

theorem groupByName_key_has_row {rows : List Row} :
    ∀ g ∈ groupByName rows, ∃ r ∈ rows, r.objectName = g.1 := by
  intro g hg
  obtain ⟨k, hk, hkeq⟩ := List.mem_map.mp hg
  rw [mem_sortKeys, mem_dedupKeys] at hk
  obtain ⟨r, hr, hrk⟩ := List.mem_map.mp hk
  exact ⟨r, hr, by rw [← hkeq, hrk]⟩

theorem single_sheet_all_unmatched {idf : Idf} {sh : Sheet}
    {objs : List IdfObject}
    (hnall : ¬ sh.name = "ALL") (hnd : NodupKeys idf)
    (hlk : lookupType idf.idfobjects (pyStrip sh.name) = some objs)
    (hnom : ∀ r ∈ sh.rows, findMatch objs r.objectName = none) :
    update_idf_from_excel idf [sh] =
      (idf, { initStats with
                failed_updates := (groupByName sh.rows).length,
                warnings := (groupByName sh.rows).map
                  (fun g => objectNotFoundWarning g.1 (pyStrip sh.name)) }) := by
  have hall : ¬ (sh.name == "ALL") = true := by simpa using hnall
  have hgnom : ∀ g ∈ groupByName sh.rows,
      findMatch objs g.1 = none := by
    intro g hg
    obtain ⟨r, hr, hrk⟩ := groupByName_key_has_row g hg
    rw [← hrk]
    exact hnom r hr
  have hfold := groupsFold_all_unmatched (pyStrip sh.name)
    (groupByName sh.rows) objs initStats hgnom
  show processSheet (idf, initStats) sh = _
  simp only [processSheet, hall, Bool.false_eq_true, if_false, hlk, hfold]
  rw [setType_self hnd hlk]
  simp [initStats]

/-- C2 (counterexample): for a two-row group naming a missing object, the
claim predicts failed_updates to grow by the number of rows (2); the code
increments it once per group: failed_updates = 1, with one warning. -/
theorem C2_counterexample :
    c2sheet.rows.length = 2 ∧
    (update_idf_from_excel c2idf [c2sheet]).2.failed_updates = 1 ∧
    ¬ (update_idf_from_excel c2idf [c2sheet]).2.failed_updates = 2 ∧
    (update_idf_from_excel c2idf [c2sheet]).2.warnings =
      [objectNotFoundWarning "B" "ZONE"] := by
  refine ⟨by decide, by decide, by decide, by decide⟩

/-- C2 (amended): for a sheet whose object type has instances in the base
graph and all of whose object-name groups match no instance, the engine
counts ONE failed update per group (not per row), appends exactly one
warning naming each missing object, performs no successful update and
leaves the model unchanged. -/
theorem C2_amended_unmatched_group_counts (idf : Idf) (sh : Sheet)
    (objs : List IdfObject)
    (hnall : ¬ sh.name = "ALL") (hnd : NodupKeys idf)
    (hlk : lookupType idf.idfobjects (pyStrip sh.name) = some objs)
    (hnom : ∀ r ∈ sh.rows, findMatch objs r.objectName = none) :
    (update_idf_from_excel idf [sh]).1 = idf ∧
    (update_idf_from_excel idf [sh]).2.failed_updates =
      (groupByName sh.rows).length ∧
    (update_idf_from_excel idf [sh]).2.warnings =
      (groupByName sh.rows).map
        (fun g => objectNotFoundWarning g.1 (pyStrip sh.name)) ∧
    (update_idf_from_excel idf [sh]).2.successful_updates = 0 := by
  rw [single_sheet_all_unmatched hnall hnd hlk hnom]
  exact ⟨rfl, rfl, rfl, rfl⟩

/-- C2 (witness): the amended theorem at the concrete counterexample data:
the two-row single group yields exactly one failed update and one warning. -/
theorem C2_amended_unmatched_group_counts_witness :
    (update_idf_from_excel c2idf [c2sheet]).1 = c2idf ∧
    (update_idf_from_excel c2idf [c2sheet]).2.failed_updates =
      (groupByName c2sheet.rows).length ∧
    (update_idf_from_excel c2idf [c2sheet]).2.warnings =
      (groupByName c2sheet.rows).map
        (fun g => objectNotFoundWarning g.1 (pyStrip c2sheet.name)) ∧
    (update_idf_from_excel c2idf [c2sheet]).2.successful_updates = 0 :=
  C2_amended_unmatched_group_counts c2idf c2sheet
    [⟨["key", "Name"], ["ZONE", "A"]⟩]
    (by decide) (by unfold NodupKeys; decide) (by decide) (by decide)

/-- C3 (counterexample): a non-ALL sheet whose type has no instances in the
base graph is silently skipped: zero failed updates and no warning at all,
against the claim's one failed update per row plus an "object type not
found" warning. -/
theorem C3_counterexample :
    c3sheet.rows.length = 1 ∧
    (update_idf_from_excel c3idf [c3sheet]).2.failed_updates = 0 ∧
    (update_idf_from_excel c3idf [c3sheet]).2.warnings = [] ∧
    (update_idf_from_excel c3idf [c3sheet]).2 = initStats := by
  refine ⟨by decide, by decide, by decide, by decide⟩

/-- C3 (amended): (a) a non-ALL sheet whose trimmed name is not a known
object-type key of the parsed model is silently skipped — no failed
updates, no warnings, model unchanged; (b) a sheet whose type key exists
but holds zero instances instead yields one failed update and one
"Object ... not found in IDF" warning per object-name group. -/
theorem C3_amended_missing_type :
    (∀ (idf : Idf) (sh : Sheet), ¬ sh.name = "ALL" →
        lookupType idf.idfobjects (pyStrip sh.name) = none →
        update_idf_from_excel idf [sh] = (idf, initStats)) ∧
    (∀ (idf : Idf) (sh : Sheet), ¬ sh.name = "ALL" → NodupKeys idf →
        lookupType idf.idfobjects (pyStrip sh.name) = some [] →
        update_idf_from_excel idf [sh] =
          (idf, { initStats with
                    failed_updates := (groupByName sh.rows).length,
                    warnings := (groupByName sh.rows).map
                      (fun g => objectNotFoundWarning g.1 (pyStrip sh.name)) })) := by
  constructor
  · intro idf sh hnall hlk
    have hall : ¬ (sh.name == "ALL") = true := by simpa using hnall
    show processSheet (idf, initStats) sh = _
    simp [processSheet, hall, hlk]
  · intro idf sh hnall hnd hlk
    exact single_sheet_all_unmatched hnall hnd hlk
      (fun r _ => rfl)

/-- C3 (witness): the amended theorem at concrete inputs — an unknown type
sheet is a strict no-op, and a known-but-empty type produces the per-group
object-not-found accounting. -/
theorem C3_amended_missing_type_witness :
    update_idf_from_excel c3idf [c3sheet] = (c3idf, initStats) ∧
    update_idf_from_excel ⟨[("ZONE", [])]⟩ [⟨"ZONE", [⟨"B", "Name", "x"⟩]⟩] =
      (⟨[("ZONE", [])]⟩,
       { initStats with
           failed_updates :=
             (groupByName (Sheet.rows ⟨"ZONE", [⟨"B", "Name", "x"⟩]⟩)).length,
           warnings :=
             (groupByName (Sheet.rows ⟨"ZONE", [⟨"B", "Name", "x"⟩]⟩)).map
               (fun g => objectNotFoundWarning g.1
                 (pyStrip (Sheet.name ⟨"ZONE", [⟨"B", "Name", "x"⟩]⟩))) }) :=
  ⟨C3_amended_missing_type.1 c3idf c3sheet (by decide) (by decide),
   C3_amended_missing_type.2 ⟨[("ZONE", [])]⟩ ⟨"ZONE", [⟨"B", "Name", "x"⟩]⟩
     (by decide) (by unfold NodupKeys; decide) (by decide)⟩

/-! ## Claim C4 -/

theorem groupByName_pair {r1 r2 : Row} (hname : r1.objectName = r2.objectName) :
    groupByName [r1, r2] = [(r2.objectName, [r1, r2])] := by
  unfold groupByName
  rw [show [r1, r2].map Row.objectName = [r1.objectName, r2.objectName] from rfl]
  rw [show dedupKeys [r1.objectName, r2.objectName] = [r2.objectName] from by
    rw [show dedupKeys [r1.objectName, r2.objectName] =
        if (dedupKeys [r2.objectName]).contains r1.objectName then
          dedupKeys [r2.objectName]
        else r1.objectName :: dedupKeys [r2.objectName] from rfl]
    rw [show dedupKeys [r2.objectName] = [r2.objectName] from by
      rw [show dedupKeys [r2.objectName] =
          if (dedupKeys ([] : List String)).contains r2.objectName then
            dedupKeys ([] : List String)
          else r2.objectName :: dedupKeys ([] : List String) from rfl]
      rfl]
    rw [if_pos (by simp [hname])]]
  rw [show sortKeys [r2.objectName] = [r2.objectName] from rfl]
  rw [List.map_cons]
  rw [show List.filter (fun r => r.objectName == r2.objectName) [r1, r2] =
      [r1, r2] from by
    rw [List.filter_cons, if_pos (by simp [hname]), List.filter_cons,
      if_pos (by simp), List.filter_nil]]
  rfl

theorem run_single_sheet_single_group {idf : Idf} {sh : Sheet}
    {objs : List IdfObject} {k : Nat} {o : IdfObject} {n : String}
    {rows : List Row}
    (hnall : ¬ sh.name = "ALL")
    (hlk : lookupType idf.idfobjects (pyStrip sh.name) = some objs)
    (hgroup : groupByName sh.rows = [(n, rows)])
    (hfm : findMatch objs n = some (k, o)) :
    update_idf_from_excel idf [sh] =
      ((⟨setType idf.idfobjects (pyStrip sh.name)
          (objs.set k
            (rows.foldl (applyRow (pyStrip sh.name) n) (o, initStats)).1)⟩ : Idf),
       (rows.foldl (applyRow (pyStrip sh.name) n) (o, initStats)).2) := by
  have hall : ¬ (sh.name == "ALL") = true := by simpa using hnall
  show processSheet (idf, initStats) sh = _
  simp only [processSheet, hall, Bool.false_eq_true, if_false, hlk, hgroup,
    List.foldl_cons, List.foldl_nil]
  rw [show processGroup (pyStrip sh.name) (objs, initStats) (n, rows) =
      ((objs.set k (rows.foldl (applyRow (pyStrip sh.name) n) (o, initStats)).1),
       (rows.foldl (applyRow (pyStrip sh.name) n) (o, initStats)).2) from by
    simp only [processGroup, hfm]]

/-- C4: single-row fault isolation — in one matched object group, a row
that fails (its FieldName absent from the object's field list, or
resolving beyond the populated values so that the read raises an
`IndexError` caught by the row-level handler) is converted into one
warning or error entry and one failed update, while the following valid
row is still applied: failed_updates = 1, successful_updates = 1, and the
valid field's new value lands in the model. -/
theorem C4_single_row_fault_isolation :
    (∀ (idf : Idf) (sh : Sheet) (objs : List IdfObject) (k : Nat)
        (o : IdfObject) (r1 r2 : Row) (j : Nat) (v : String),
        ¬ sh.name = "ALL" →
        lookupType idf.idfobjects (pyStrip sh.name) = some objs →
        sh.rows = [r1, r2] →
        r1.objectName = r2.objectName →
        findMatch objs r2.objectName = some (k, o) →
        o.fieldnames.findIdx? (fun fn => fn == r1.fieldName) = none →
        o.fieldnames.findIdx? (fun fn => fn == r2.fieldName) = some j →
        o.obj[j]? = some v → ¬ v = r2.value →
        (update_idf_from_excel idf [sh]).2.failed_updates = 1 ∧
        (update_idf_from_excel idf [sh]).2.successful_updates = 1 ∧
        (update_idf_from_excel idf [sh]).2.total_updates = 1 ∧
        (update_idf_from_excel idf [sh]).2.warnings =
          [fieldNotFoundWarning r1.fieldName r2.objectName (pyStrip sh.name)] ∧
        (update_idf_from_excel idf [sh]).2.errors = [] ∧
        lookupType (update_idf_from_excel idf [sh]).1.idfobjects
            (pyStrip sh.name) =
          some (objs.set k { o with obj := o.obj.set j r2.value })) ∧
    (∀ (idf : Idf) (sh : Sheet) (objs : List IdfObject) (k : Nat)
        (o : IdfObject) (r1 r2 : Row) (j1 j : Nat) (v : String),
        ¬ sh.name = "ALL" →
        lookupType idf.idfobjects (pyStrip sh.name) = some objs →
        sh.rows = [r1, r2] →
        r1.objectName = r2.objectName →
        findMatch objs r2.objectName = some (k, o) →
        o.fieldnames.findIdx? (fun fn => fn == r1.fieldName) = some j1 →
        o.obj[j1]? = none →
        o.fieldnames.findIdx? (fun fn => fn == r2.fieldName) = some j →
        o.obj[j]? = some v → ¬ v = r2.value →
        (update_idf_from_excel idf [sh]).2.failed_updates = 1 ∧
        (update_idf_from_excel idf [sh]).2.successful_updates = 1 ∧
        (update_idf_from_excel idf [sh]).2.total_updates = 1 ∧
        (update_idf_from_excel idf [sh]).2.errors =
          [indexErrorMsg r1.fieldName r2.objectName] ∧
        (update_idf_from_excel idf [sh]).2.warnings = [] ∧
        lookupType (update_idf_from_excel idf [sh]).1.idfobjects
            (pyStrip sh.name) =
          some (objs.set k { o with obj := o.obj.set j r2.value })) := by
  constructor
  · intro idf sh objs k o r1 r2 j v hnall hlk hrows hname hfm hbad hgood hold hneq
    have hrun := run_single_sheet_single_group hnall hlk
      (by rw [hrows]; exact groupByName_pair hname) hfm
    have hfold : [r1, r2].foldl (applyRow (pyStrip sh.name) r2.objectName)
        (o, initStats) =
        ({ o with obj := o.obj.set j r2.value },
         { initStats with
             total_updates := 1, successful_updates := 1, failed_updates := 1,
             warnings := [fieldNotFoundWarning r1.fieldName r2.objectName
               (pyStrip sh.name)],
             updated_objects := [⟨pyStrip sh.name, r2.objectName, r2.fieldName,
               v, r2.value⟩] }) := by
      rw [List.foldl_cons, List.foldl_cons, List.foldl_nil]
      rw [show applyRow (pyStrip sh.name) r2.objectName (o, initStats) r1 =
          (o, { initStats with
                  warnings := [fieldNotFoundWarning r1.fieldName r2.objectName
                    (pyStrip sh.name)],
                  failed_updates := 1 }) from by
        simp [applyRow, hbad, initStats]]
      simp [applyRow, hgood, hold, hneq, initStats]
    rw [hrun, hfold]
    refine ⟨rfl, rfl, rfl, rfl, rfl, ?_⟩
    simp only [lookupType_setType, hlk, Option.map_some']
    rw [if_pos (by simp)]
  · intro idf sh objs k o r1 r2 j1 j v hnall hlk hrows hname hfm hbad1 hbad2
      hgood hold hneq
    have hrun := run_single_sheet_single_group hnall hlk
      (by rw [hrows]; exact groupByName_pair hname) hfm
    have hfold : [r1, r2].foldl (applyRow (pyStrip sh.name) r2.objectName)
        (o, initStats) =
        ({ o with obj := o.obj.set j r2.value },
         { initStats with
             total_updates := 1, successful_updates := 1, failed_updates := 1,
             errors := [indexErrorMsg r1.fieldName r2.objectName],
             updated_objects := [⟨pyStrip sh.name, r2.objectName, r2.fieldName,
               v, r2.value⟩] }) := by
      rw [List.foldl_cons, List.foldl_cons, List.foldl_nil]
      rw [show applyRow (pyStrip sh.name) r2.objectName (o, initStats) r1 =
          (o, { initStats with
                  errors := [indexErrorMsg r1.fieldName r2.objectName],
                  failed_updates := 1 }) from by
        simp [applyRow, hbad1, hbad2, initStats]]
      simp [applyRow, hgood, hold, hneq, initStats]
    rw [hrun, hfold]
    refine ⟨rfl, rfl, rfl, rfl, rfl, ?_⟩
    simp only [lookupType_setType, hlk, Option.map_some']
    rw [if_pos (by simp)]

/-- C4 (witness): both fault-isolation conjuncts at concrete data — a bogus
field name, respectively an out-of-range field position, in the same group
as a valid width edit. -/
theorem C4_single_row_fault_isolation_witness :
    ((update_idf_from_excel c1idf
        [⟨"ZONE", [⟨"Z", "Bogus", "1"⟩, ⟨"Z", "Width", "12"⟩]⟩]).2.failed_updates
        = 1 ∧
     (update_idf_from_excel c1idf
        [⟨"ZONE", [⟨"Z", "Bogus", "1"⟩, ⟨"Z", "Width", "12"⟩]⟩]).2.successful_updates
        = 1) ∧
    ((update_idf_from_excel
        ⟨[("ZONE", [⟨["key", "Name", "Width"], ["ZONE", "Z"]⟩])]⟩
        [⟨"ZONE", [⟨"Z", "Width", "1"⟩, ⟨"Z", "Name", "Y"⟩]⟩]).2.failed_updates
        = 1 ∧
     (update_idf_from_excel
        ⟨[("ZONE", [⟨["key", "Name", "Width"], ["ZONE", "Z"]⟩])]⟩
        [⟨"ZONE", [⟨"Z", "Width", "1"⟩, ⟨"Z", "Name", "Y"⟩]⟩]).2.successful_updates
        = 1) := by
  constructor
  · have h := C4_single_row_fault_isolation.1 c1idf
      ⟨"ZONE", [⟨"Z", "Bogus", "1"⟩, ⟨"Z", "Width", "12"⟩]⟩
      [⟨["key", "Name", "Width"], ["ZONE", "Z", "10"]⟩] 0
      ⟨["key", "Name", "Width"], ["ZONE", "Z", "10"]⟩
      ⟨"Z", "Bogus", "1"⟩ ⟨"Z", "Width", "12"⟩ 2 "10"
      (by decide) (by decide) (by decide) (by decide) (by decide) (by decide)
      (by decide) (by decide) (by decide)
    exact ⟨h.1, h.2.1⟩
  · have h := C4_single_row_fault_isolation.2
      ⟨[("ZONE", [⟨["key", "Name", "Width"], ["ZONE", "Z"]⟩])]⟩
      ⟨"ZONE", [⟨"Z", "Width", "1"⟩, ⟨"Z", "Name", "Y"⟩]⟩
      [⟨["key", "Name", "Width"], ["ZONE", "Z"]⟩] 0
      ⟨["key", "Name", "Width"], ["ZONE", "Z"]⟩
      ⟨"Z", "Width", "1"⟩ ⟨"Z", "Name", "Y"⟩ 2 1 "Z"
      (by decide) (by decide) (by decide) (by decide) (by decide) (by decide)
      (by decide) (by decide) (by decide) (by decide)
    exact ⟨h.1, h.2.1⟩

/-! ## Claim C9 -/

theorem applyRow_statsOk (object_type object_name : String)
    (st : IdfObject × UpdateStats) (row : Row) (h : statsOk st.2) :
    statsOk (applyRow object_type object_name st row).2 := by
  cases st with
  | mk o s =>
    cases h1 : o.fieldnames.findIdx? (fun fn => fn == row.fieldName) with
    | none => simpa [applyRow, h1] using h
    | some fi =>
      cases h2 : o.obj[fi]? with
      | none => simpa [applyRow, h1, h2] using h
      | some old =>
        by_cases hne : old = row.value
        · simpa [applyRow, h1, h2, hne] using h
        · have ht2 : s.total_updates = s.successful_updates := h.1
          have hs2 : s.successful_updates = s.updated_objects.length := h.2
          constructor
          · simp [applyRow, h1, h2, hne, ht2]
          · simp [applyRow, h1, h2, hne, hs2]

theorem processGroup_statsOk (object_type : String)
    (st : List IdfObject × UpdateStats) (g : String × List Row)
    (h : statsOk st.2) : statsOk (processGroup object_type st g).2 := by
  cases st with
  | mk objs s =>
    cases hfm : findMatch objs g.1 with
    | none => simpa [processGroup, hfm] using h
    | some p =>
      cases p with
      | mk k o =>
        have hs0 : statsOk s := h
        have hfold : statsOk ((g.2.foldl (applyRow object_type g.1) (o, s)).2) := by
          refine foldl_preserve (P := fun a => statsOk a.2) ?_ g.2 (o, s) hs0
          intro a b ha
          exact applyRow_statsOk object_type g.1 a b ha
        cases hres : g.2.foldl (applyRow object_type g.1) (o, s) with
        | mk o1 s1 =>
          rw [hres] at hfold
          simpa [processGroup, hfm, hres] using hfold

theorem processSheet_statsOk (st : Idf × UpdateStats) (sh : Sheet)
    (h : statsOk st.2) : statsOk (processSheet st sh).2 := by
  cases st with
  | mk idf s =>
    by_cases hall : sh.name == "ALL"
    · simpa [processSheet, hall] using h
    · cases hlk : lookupType idf.idfobjects (pyStrip sh.name) with
      | none => simpa [processSheet, hall, hlk] using h
      | some objs =>
        have hs0 : statsOk s := h
        have hfold : statsOk (((groupByName sh.rows).foldl
            (processGroup (pyStrip sh.name)) (objs, s)).2) := by
          refine foldl_preserve (P := fun a => statsOk a.2) ?_
            (groupByName sh.rows) (objs, s) hs0
          intro a b ha
          exact processGroup_statsOk (pyStrip sh.name) a b ha
        cases hres : (groupByName sh.rows).foldl
            (processGroup (pyStrip sh.name)) (objs, s) with
        | mk objs1 s1 =>
          rw [hres] at hfold
          simpa [processSheet, hall, hlk, hres] using hfold

/-- C9: at the end of every update run, total_updates equals
successful_updates and both equal the length of updated_objects — failed
rows are never counted into total_updates, and an UpdateRecord is appended
exactly when successful_updates is incremented. -/
theorem C9_stats_invariant (idf : Idf) (sheets : List Sheet) :
    (update_idf_from_excel idf sheets).2.total_updates =
      (update_idf_from_excel idf sheets).2.successful_updates ∧
    (update_idf_from_excel idf sheets).2.successful_updates =
      (update_idf_from_excel idf sheets).2.updated_objects.length := by
  have : statsOk (update_idf_from_excel idf sheets).2 := by
    unfold update_idf_from_excel
    refine foldl_preserve (P := fun a => statsOk a.2) ?_ sheets
      (idf, initStats) ⟨rfl, rfl⟩
    intro a b ha
    exact processSheet_statsOk a b ha
  exact this

/-! ## Claims C5 and C10 -/

theorem recordsOfObject_enumFrom (o : IdfObject) :
    ∀ (l : List String) (i0 : Nat),
      (List.enumFrom i0 l).filterMap (fun p =>
        match o.fieldnames[p.1]? with
        | some field_name =>
          some { objectName := match o.getName with | some n => n | none => "N/A",
                 fieldName := field_name, value := p.2, unit := "" }
        | none => none) =
      List.zipWith (fun v fn =>
        ({ objectName := match o.getName with | some n => n | none => "N/A",
           fieldName := fn, value := v, unit := "" } : FlatRecord))
        l (o.fieldnames.drop i0) := by
  intro l
  induction l with
  | nil => intro i0; rfl
  | cons v rest ih =>
    intro i0
    rw [List.enumFrom_cons, List.filterMap_cons]
    cases hd : o.fieldnames.drop i0 with
    | nil =>
      have hget : o.fieldnames[i0]? = none :=
        List.getElem?_eq_none (List.drop_eq_nil_iff.mp hd)
      have hdrop : o.fieldnames.drop (i0 + 1) = [] := by
        rw [← List.tail_drop, hd]
        rfl
      simp only [hget]
      rw [ih (i0 + 1), hdrop]
      simp
    | cons fn fns =>
      have hget : o.fieldnames[i0]? = some fn := by
        have h0 := List.getElem?_drop o.fieldnames i0 0
        rw [hd] at h0
        simpa using h0.symm
      have hdrop : o.fieldnames.drop (i0 + 1) = fns := by
        rw [← List.tail_drop, hd]
        rfl
      simp only [hget]
      rw [ih (i0 + 1), hdrop]
      rfl

theorem recordsOfObject_zipWith (o : IdfObject) :
    recordsOfObject o =
      List.zipWith (fun v fn =>
        ({ objectName := match o.getName with | some n => n | none => "N/A",
           fieldName := fn, value := v, unit := "" } : FlatRecord))
        o.obj o.fieldnames := by
  unfold recordsOfObject
  rw [show o.obj.enum = List.enumFrom 0 o.obj from rfl]
  rw [recordsOfObject_enumFrom o o.obj 0, List.drop_zero]

theorem zipWith_second {α β : Type} :
    ∀ (l1 : List α) (l2 : List β),
      List.zipWith (fun _ b => b) l1 l2 = l2.take l1.length := by
  intro l1
  induction l1 with
  | nil => intro l2; simp
  | cons a rest ih =>
    intro l2
    cases l2 with
    | nil => simp
    | cons b rest2 => simp [ih]

theorem zipWith_first {α β : Type} :
    ∀ (l1 : List α) (l2 : List β),
      List.zipWith (fun a _ => a) l1 l2 = l1.take l2.length := by
  intro l1
  induction l1 with
  | nil => intro l2; simp
  | cons a rest ih =>
    intro l2
    cases l2 with
    | nil => simp
    | cons b rest2 => simp [ih]

/-- C5: schema-driven field alignment — each emitted FlatRecord's FieldName
equals the object's schema field-name list at the record's originating
position, records are emitted exactly for the populated positions the
schema covers (count = min of populated length and schema length, values
taken positionally — no off-by-one drift), and every per-type record list
of `extract_idf_data` is precisely the concatenated flattening of that
type's instances. -/
theorem C5_schema_field_alignment :
    (∀ o : IdfObject,
        (recordsOfObject o).length =
          min o.obj.length o.fieldnames.length ∧
        (recordsOfObject o).map FlatRecord.fieldName =
          o.fieldnames.take o.obj.length ∧
        (recordsOfObject o).map FlatRecord.value =
          o.obj.take o.fieldnames.length) ∧
    (∀ (idf : Idf) (t : String) (recs : List FlatRecord),
        (t, recs) ∈ extract_idf_data idf →
        ∃ objs, (t, objs) ∈ idf.idfobjects ∧
          recs = (objs.map recordsOfObject).flatten) := by
  constructor
  · intro o
    rw [recordsOfObject_zipWith]
    refine ⟨by simp [List.length_zipWith], ?_, ?_⟩
    · rw [List.map_zipWith]
      exact zipWith_second o.obj o.fieldnames
    · rw [List.map_zipWith]
      exact zipWith_first o.obj o.fieldnames
  · intro idf t recs hmem
    unfold extract_idf_data at hmem
    obtain ⟨p, hp, hfp⟩ := List.mem_filterMap.mp hmem
    by_cases he : p.2.isEmpty
    · rw [if_pos he] at hfp
      cases hfp
    · rw [if_neg he] at hfp
      simp only at hfp
      by_cases hd : ((p.2.map recordsOfObject).flatten).isEmpty
      · rw [if_pos hd] at hfp
        cases hfp
      · rw [if_neg hd] at hfp
        have hp1 : p.1 = t := congrArg Prod.fst (Option.some.inj hfp)
        have hp2 : (p.2.map recordsOfObject).flatten = recs :=
          congrArg Prod.snd (Option.some.inj hfp)
        refine ⟨p.2, ?_, hp2.symm⟩
        rw [← hp1]
        exact hp

/-- C5 (witness): the alignment and the extract decomposition at a concrete
one-zone model. -/
theorem C5_schema_field_alignment_witness :
    ((recordsOfObject ⟨["key", "Name", "Width"], ["ZONE", "Z"]⟩).length
        = min 2 3 ∧
     (recordsOfObject ⟨["key", "Name", "Width"], ["ZONE", "Z"]⟩).map
        FlatRecord.fieldName = ["key", "Name", "Width"].take 2 ∧
     (recordsOfObject ⟨["key", "Name", "Width"], ["ZONE", "Z"]⟩).map
        FlatRecord.value = ["ZONE", "Z"].take 3) ∧
    (∃ objs,
        ("ZONE", objs) ∈
          (⟨[("ZONE", [⟨["key", "Name", "Width"], ["ZONE", "Z"]⟩])]⟩ :
            Idf).idfobjects ∧
        [⟨"Z", "key", "ZONE", ""⟩, ⟨"Z", "Name", "Z", ""⟩] =
          (objs.map recordsOfObject).flatten) :=
  ⟨C5_schema_field_alignment.1 ⟨["key", "Name", "Width"], ["ZONE", "Z"]⟩,
   C5_schema_field_alignment.2
     ⟨[("ZONE", [⟨["key", "Name", "Width"], ["ZONE", "Z"]⟩])]⟩
     "ZONE" [⟨"Z", "key", "ZONE", ""⟩, ⟨"Z", "Name", "Z", ""⟩] (by decide)⟩

/-- C10: nameless-object placeholder — every FlatRecord emitted for an
instance whose live `Name` attribute read fails (no `Name` among its field
names, or the populated values not reaching that position) carries the
literal string `"N/A"` as its ObjectName, and the update-time matching scan
can never return such an instance (it requires `hasattr(obj, 'Name')`), so
such records are never matched back by name. -/
theorem C10_nameless_placeholder :
    (∀ o : IdfObject, o.getName = none →
        ∀ r ∈ recordsOfObject o, r.objectName = "N/A") ∧
    (∀ (objs : List IdfObject) (n : String) (k : Nat) (o : IdfObject),
        findMatch objs n = some (k, o) → ¬ o.getName = none) := by
  constructor
  · intro o hname r hr
    unfold recordsOfObject at hr
    obtain ⟨p, _, hfp⟩ := List.mem_filterMap.mp hr
    cases hg : o.fieldnames[p.1]? with
    | none => rw [hg] at hfp; cases hfp
    | some fn =>
      rw [hg] at hfp
      have := Option.some.inj hfp
      rw [← this, hname]
  · intro objs n k o hfm hnone
    have := (findMatch_spec hfm).2
    rw [hnone] at this
    cases this

/-- C10 (witness): the placeholder and never-matched facts at a concrete
nameless instance (a `Version`-style object without a Name field). -/
theorem C10_nameless_placeholder_witness :
    (FlatRecord.objectName ⟨"N/A", "key", "Version", ""⟩ = "N/A") ∧
    ¬ (IdfObject.getName ⟨["key", "Name"], ["ZONE", "Z"]⟩ = none) :=
  ⟨C10_nameless_placeholder.1 ⟨["key", "Version Identifier"],
      ["Version", "22.1"]⟩ (by decide) ⟨"N/A", "key", "Version", ""⟩ (by decide),
   C10_nameless_placeholder.2 [⟨["key", "Name"], ["ZONE", "Z"]⟩]
     "Z" 0 ⟨["key", "Name"], ["ZONE", "Z"]⟩ (by decide)⟩

/-! ## Claims C6 and C7 -/

theorem allRow_fold_nil (t : String) (r : FlatRecord) :
    (allRow t r).foldl
      (fun cs kv => if cs.contains kv.1 then cs else cs ++ [kv.1]) [] =
      allCols := rfl

theorem allRow_fold_allCols (t : String) (r : FlatRecord) :
    (allRow t r).foldl
      (fun cs kv => if cs.contains kv.1 then cs else cs ++ [kv.1]) allCols =
      allCols := rfl

theorem typeRow_fold_nil (r : FlatRecord) :
    (typeRow r).foldl
      (fun cs kv => if cs.contains kv.1 then cs else cs ++ [kv.1]) [] =
      typeCols := rfl

theorem typeRow_fold_typeCols (r : FlatRecord) :
    (typeRow r).foldl
      (fun cs kv => if cs.contains kv.1 then cs else cs ++ [kv.1]) typeCols =
      typeCols := rfl

theorem dfColumns_allRows :
    ∀ {rows : List (List (String × String))}, rows ≠ [] →
      (∀ row ∈ rows, ∃ t r, row = allRow t r) → dfColumns rows = allCols := by
  have haux : ∀ (rows : List (List (String × String))),
      (∀ row ∈ rows, ∃ t r, row = allRow t r) →
      rows.foldl (fun cols row => row.foldl
        (fun cs kv => if cs.contains kv.1 then cs else cs ++ [kv.1]) cols)
        allCols = allCols := by
    intro rows
    induction rows with
    | nil => intro _; rfl
    | cons row rest ih =>
      intro hall
      rw [List.foldl_cons]
      obtain ⟨t, r, hrow⟩ := hall row (by simp)
      rw [hrow, allRow_fold_allCols]
      exact ih (fun row2 hrow2 => hall row2 (by simp [hrow2]))
  intro rows hne hall
  cases rows with
  | nil => exact absurd rfl hne
  | cons row rest =>
    obtain ⟨t, r, hrow⟩ := hall row (by simp)
    unfold dfColumns
    rw [List.foldl_cons, hrow, allRow_fold_nil]
    exact haux rest (fun row2 hrow2 => hall row2 (by simp [hrow2]))

theorem dfColumns_typeRows :
    ∀ {rows : List (List (String × String))}, rows ≠ [] →
      (∀ row ∈ rows, ∃ r, row = typeRow r) → dfColumns rows = typeCols := by
  have haux : ∀ (rows : List (List (String × String))),
      (∀ row ∈ rows, ∃ r, row = typeRow r) →
      rows.foldl (fun cols row => row.foldl
        (fun cs kv => if cs.contains kv.1 then cs else cs ++ [kv.1]) cols)
        typeCols = typeCols := by
    intro rows
    induction rows with
    | nil => intro _; rfl
    | cons row rest ih =>
      intro hall
      rw [List.foldl_cons]
      obtain ⟨r, hrow⟩ := hall row (by simp)
      rw [hrow, typeRow_fold_typeCols]
      exact ih (fun row2 hrow2 => hall row2 (by simp [hrow2]))
  intro rows hne hall
  cases rows with
  | nil => exact absurd rfl hne
  | cons row rest =>
    obtain ⟨r, hrow⟩ := hall row (by simp)
    unfold dfColumns
    rw [List.foldl_cons, hrow, typeRow_fold_nil]
    exact haux rest (fun row2 hrow2 => hall row2 (by simp [hrow2]))

theorem writeSheet_head_preserved {wb : List (String × Table)}
    {e : String × Table} {nm : String} {tbl : Table}
    (h : wb.head? = some e) (hne : ¬ nm = e.1) :
    (writeSheet wb nm tbl).head? = some e := by
  cases wb with
  | nil => cases h
  | cons w rest =>
    have hw : w = e := Option.some.inj h
    subst hw
    unfold writeSheet
    by_cases hany : (w :: rest).any (fun p => p.1 == nm)
    · rw [if_pos hany]
      rw [List.map_cons]
      rw [if_neg (by simpa using fun hh => hne hh.symm)]
      rfl
    · rw [if_neg hany]
      rfl

theorem writeSheet_entries {P : String × Table → Prop}
    {wb : List (String × Table)} {nm : String} {tbl : Table}
    (hwb : ∀ e ∈ wb, P e) (hnew : P (nm, tbl)) :
    ∀ e ∈ writeSheet wb nm tbl, P e := by
  intro e he
  unfold writeSheet at he
  by_cases hany : wb.any (fun p => p.1 == nm)
  · rw [if_pos hany] at he
    obtain ⟨w, hw, hwe⟩ := List.mem_map.mp he
    by_cases hwnm : w.1 == nm
    · rw [if_pos hwnm] at hwe
      rw [← hwe]
      exact hnew
    · rw [if_neg hwnm] at hwe
      rw [← hwe]
      exact hwb w hw
  · rw [if_neg hany] at he
    rw [List.mem_append] at he
    cases he with
    | inl hmem => exact hwb e hmem
    | inr hmem =>
      have : e = (nm, tbl) := by simpa using hmem
      rw [this]
      exact hnew

/-- C6 (counterexample): the consolidated `ALL` sheet written for a
one-record model has the five columns ObjectType, ObjectName, FieldName,
Value, Unit — not the four the claim states. -/
theorem C6_counterexample :
    ((write_data_to_excel [("ZONE", [⟨"Z", "Name", "Z", ""⟩])] true).head?.map
        (fun e => e.2.columns)) =
      some ["ObjectType", "ObjectName", "FieldName", "Value", "Unit"] ∧
    ¬ ((write_data_to_excel [("ZONE", [⟨"Z", "Name", "Z", ""⟩])] true).head?.map
        (fun e => e.2.columns)) =
      some ["ObjectType", "ObjectName", "FieldName", "Value"] := by
  refine ⟨by decide, by decide⟩

/-- C6 (amended): the `ALL` sheet has exactly the columns ObjectType,
ObjectName, FieldName, Value, Unit (the record dict's Unit key is carried
along), each per-object-type sheet has exactly ObjectName, FieldName,
Value, Unit, and the extraction step always fills Unit with the empty
string. -/
theorem C6_amended_sheet_columns :
    (∀ data : List (String × List FlatRecord),
        (data.map (fun p => p.2.map (allRow p.1))).flatten ≠ [] →
        (∀ p ∈ data, ¬ sanitizeSheetName p.1 = "ALL") →
        (write_data_to_excel data true).head? =
          some ("ALL",
            mkTable ((data.map (fun p => p.2.map (allRow p.1))).flatten)) ∧
        (mkTable ((data.map (fun p => p.2.map (allRow p.1))).flatten)).columns =
          allCols) ∧
    (∀ data : List (String × List FlatRecord),
        (∀ p ∈ data, p.2 ≠ []) →
        ∀ e ∈ write_data_to_excel data true,
          e.1 = "ALL" ∨ e.2.columns = typeCols) ∧
    (∀ (o : IdfObject), ∀ r ∈ recordsOfObject o, r.unit = "") := by
  refine ⟨?_, ?_, ?_⟩
  · intro data hrec hsan
    have hdata : ¬ data.isEmpty = true := by
      intro he
      rw [List.isEmpty_iff] at he
      rw [he] at hrec
      exact hrec rfl
    have hcols : (mkTable ((data.map (fun p =>
        p.2.map (allRow p.1))).flatten)).columns = allCols := by
      show dfColumns _ = allCols
      refine dfColumns_allRows hrec ?_
      intro row hrow
      obtain ⟨l, hl, hrl⟩ := List.mem_flatten.mp hrow
      obtain ⟨p, _, hpl⟩ := List.mem_map.mp hl
      rw [← hpl] at hrl
      obtain ⟨r, _, hr⟩ := List.mem_map.mp hrl
      exact ⟨p.1, r, hr.symm⟩
    refine ⟨?_, hcols⟩
    unfold write_data_to_excel
    rw [if_neg hdata]
    simp only
    rw [if_pos trivial]
    rw [if_neg (by
      intro he
      rw [List.isEmpty_iff] at he
      exact hrec he)]
    have hbase : (writeSheet [] "ALL"
        (mkTable ((data.map (fun p => p.2.map (allRow p.1))).flatten))).head? =
        some ("ALL",
          mkTable ((data.map (fun p => p.2.map (allRow p.1))).flatten)) := rfl
    revert hbase
    generalize writeSheet [] "ALL"
      (mkTable ((data.map (fun p => p.2.map (allRow p.1))).flatten)) = wb0
    have : ∀ (l : List (String × List FlatRecord))
        (wb : List (String × Table)) e,
        (∀ p ∈ l, ¬ sanitizeSheetName p.1 = "ALL") →
        e.1 = "ALL" →
        wb.head? = some e →
        (l.foldl (fun wb p => writeSheet wb (sanitizeSheetName p.1)
          (mkTable (p.2.map typeRow))) wb).head? = some e := by
      intro l
      induction l with
      | nil => intro wb e _ _ h; exact h
      | cons p rest ih =>
        intro wb e hs he h
        rw [List.foldl_cons]
        refine ih _ e (fun q hq => hs q (by simp [hq])) he ?_
        refine writeSheet_head_preserved h ?_
        rw [he]
        exact hs p (by simp)
    intro hbase
    exact this data wb0 _ hsan rfl hbase
  · intro data hne e he
    unfold write_data_to_excel at he
    by_cases hdata : data.isEmpty
    · rw [if_pos hdata] at he
      cases he
    · rw [if_neg hdata] at he
      simp only at he
      rw [if_pos trivial] at he
      have hfold : ∀ (l : List (String × List FlatRecord))
          (wb : List (String × Table)),
          (∀ p ∈ l, p.2 ≠ []) →
          (∀ e2 ∈ wb, e2.1 = "ALL" ∨ e2.2.columns = typeCols) →
          ∀ e2 ∈ l.foldl (fun wb p => writeSheet wb (sanitizeSheetName p.1)
            (mkTable (p.2.map typeRow))) wb,
            e2.1 = "ALL" ∨ e2.2.columns = typeCols := by
        intro l
        induction l with
        | nil => intro wb _ hwb e2 he2; exact hwb e2 he2
        | cons p rest ih =>
          intro wb hl hwb e2 he2
          rw [List.foldl_cons] at he2
          refine ih _ (fun q hq => hl q (by simp [hq])) ?_ e2 he2
          refine writeSheet_entries hwb ?_
          right
          show dfColumns _ = typeCols
          refine dfColumns_typeRows ?_ ?_
          · intro hmap
            exact hl p (by simp) (by
              cases hp2 : p.2 with
              | nil => rfl
              | cons x xs => rw [hp2] at hmap; cases hmap)
          · intro row hrow
            obtain ⟨r, _, hr⟩ := List.mem_map.mp hrow
            exact ⟨r, hr.symm⟩
      refine hfold data _ hne ?_ e he
      intro e2 he2
      by_cases hall : ((data.map (fun p => p.2.map (allRow p.1))).flatten).isEmpty
      · rw [if_pos hall] at he2
        cases he2
      · rw [if_neg hall] at he2
        have : e2 = ("ALL", mkTable ((data.map (fun p =>
            p.2.map (allRow p.1))).flatten)) := by
          simpa [writeSheet] using he2
        left
        rw [this]
  · intro o r hr
    unfold recordsOfObject at hr
    obtain ⟨p, _, hfp⟩ := List.mem_filterMap.mp hr
    cases hg : o.fieldnames[p.1]? with
    | none => rw [hg] at hfp; cases hfp
    | some fn =>
      rw [hg] at hfp
      have := Option.some.inj hfp
      rw [← this]

/-- C6 (witness): the amended column shapes at a concrete one-record model. -/
theorem C6_amended_sheet_columns_witness :
    ((write_data_to_excel [("ZONE", [⟨"Z", "Name", "Z", ""⟩])] true).head? =
      some ("ALL", mkTable (([("ZONE", [(⟨"Z", "Name", "Z", ""⟩ : FlatRecord)])].map
        (fun p => p.2.map (allRow p.1))).flatten))) ∧
    ((mkTable (([("ZONE", [(⟨"Z", "Name", "Z", ""⟩ : FlatRecord)])].map
        (fun p => p.2.map (allRow p.1))).flatten)).columns = allCols) ∧
    (∀ e ∈ write_data_to_excel [("ZONE", [⟨"Z", "Name", "Z", ""⟩])] true,
        e.1 = "ALL" ∨ e.2.columns = typeCols) ∧
    (∀ r ∈ recordsOfObject ⟨["key"], ["Version"]⟩, r.unit = "") := by
  have h1 := C6_amended_sheet_columns.1 [("ZONE", [⟨"Z", "Name", "Z", ""⟩])]
    (by decide) (by decide)
  have h2 := C6_amended_sheet_columns.2.1 [("ZONE", [⟨"Z", "Name", "Z", ""⟩])]
    (by decide)
  have h3 := C6_amended_sheet_columns.2.2 ⟨["key"], ["Version"]⟩
  exact ⟨h1.1, h1.2, h2, h3⟩

/-- C7 (counterexample): the writer performs no collision check: two
distinct object types whose sanitised names agree on the first 31
characters produce a workbook with only two sheets (ALL plus ONE shared
per-type sheet), and the shared sheet holds the second type's records —
the first type's sheet was silently overwritten, nothing was flagged. -/
theorem C7_counterexample :
    ¬ c7t1 = c7t2 ∧
    sanitizeSheetName c7t1 = sanitizeSheetName c7t2 ∧
    (write_data_to_excel
        [(c7t1, [⟨"A", "key", c7t1, ""⟩]), (c7t2, [⟨"B", "key", c7t2, ""⟩])]
        true).map Prod.fst = ["ALL", sanitizeSheetName c7t1] ∧
    (write_data_to_excel
        [(c7t1, [⟨"A", "key", c7t1, ""⟩]), (c7t2, [⟨"B", "key", c7t2, ""⟩])]
        true)[1]? =
      some (sanitizeSheetName c7t1,
        mkTable [typeRow ⟨"B", "key", c7t2, ""⟩]) ∧
    ¬ mkTable [typeRow (⟨"B", "key", c7t2, ""⟩ : FlatRecord)] =
        mkTable [typeRow (⟨"A", "key", c7t1, ""⟩ : FlatRecord)] := by
  refine ⟨by decide, by decide, by decide, by decide, by decide⟩

/-- C7 (amended): sheet-name truncation collisions are NOT detected: for
any two object types whose sanitised names coincide (and differ from
"ALL"), writing both produces exactly one shared per-type sheet whose
final contents are the second type's records — the later `to_excel` call
silently reuses the existing worksheet, and the writer emits no conflict
report of any kind. -/
theorem C7_amended_silent_overwrite (t1 t2 : String) (d1 d2 : List FlatRecord)
    (hne1 : d1 ≠ [])
    (hs : sanitizeSheetName t1 = sanitizeSheetName t2)
    (hnall : ¬ sanitizeSheetName t1 = "ALL") :
    write_data_to_excel [(t1, d1), (t2, d2)] true =
      [("ALL", mkTable (d1.map (allRow t1) ++ (d2.map (allRow t2) ++ []))),
       (sanitizeSheetName t1, mkTable (d2.map typeRow))] := by
  cases d1 with
  | nil => exact absurd rfl hne1
  | cons r1 rest1 =>
    have hall1 : (("ALL" : String) == sanitizeSheetName t1) = false := by
      have h2 : ¬ ("ALL" : String) = sanitizeSheetName t1 :=
        fun h => hnall h.symm
      simpa using h2
    unfold write_data_to_excel
    simp only [List.isEmpty_cons, Bool.false_eq_true, if_false]
    rw [if_pos trivial]
    rw [show (List.map (fun p => List.map (allRow p.1) p.2)
        [(t1, r1 :: rest1), (t2, d2)]).flatten =
        List.map (allRow t1) (r1 :: rest1) ++ (List.map (allRow t2) d2 ++ [])
      from rfl]
    have hflat : ¬ ((List.map (allRow t1) (r1 :: rest1) ++
        (List.map (allRow t2) d2 ++ [])).isEmpty = true) := by simp
    rw [if_neg hflat]
    rw [List.foldl_cons, List.foldl_cons, List.foldl_nil]
    simp only
    have hstep1 : writeSheet
        (writeSheet [] "ALL" (mkTable
          (List.map (allRow t1) (r1 :: rest1) ++ (List.map (allRow t2) d2 ++ []))))
        (sanitizeSheetName t1) (mkTable (List.map typeRow (r1 :: rest1))) =
        [("ALL", mkTable
          (List.map (allRow t1) (r1 :: rest1) ++ (List.map (allRow t2) d2 ++ []))),
         (sanitizeSheetName t1, mkTable (List.map typeRow (r1 :: rest1)))] := by
      rw [show writeSheet [] "ALL" (mkTable
          (List.map (allRow t1) (r1 :: rest1) ++ (List.map (allRow t2) d2 ++ []))) =
          [("ALL", mkTable
            (List.map (allRow t1) (r1 :: rest1) ++ (List.map (allRow t2) d2 ++ [])))]
        from rfl]
      unfold writeSheet
      rw [if_neg (by simp [hall1])]
      rfl
    rw [hstep1]
    rw [← hs]
    unfold writeSheet
    rw [if_pos (by simp)]
    simp only [List.map_cons, List.map_nil]
    rw [if_neg (by simp [hall1]), if_pos (by simp)]

/-- C7 (witness): the amended silent-overwrite theorem at the concrete
colliding 32-character type names. -/
theorem C7_amended_silent_overwrite_witness :
    write_data_to_excel
        [(c7t1, [⟨"A", "key", c7t1, ""⟩]), (c7t2, [⟨"B", "key", c7t2, ""⟩])]
        true =
      [("ALL", mkTable
        ([(⟨"A", "key", c7t1, ""⟩ : FlatRecord)].map (allRow c7t1) ++
         ([(⟨"B", "key", c7t2, ""⟩ : FlatRecord)].map (allRow c7t2) ++ []))),
       (sanitizeSheetName c7t1,
        mkTable ([(⟨"B", "key", c7t2, ""⟩ : FlatRecord)].map typeRow))] :=
  C7_amended_silent_overwrite c7t1 c7t2
    [⟨"A", "key", c7t1, ""⟩] [⟨"B", "key", c7t2, ""⟩]
    (by decide) (by decide) (by decide)

/-! ## Claim C8 -/

theorem length_flatten_pos {α β : Type} (f : α → List β) :
    ∀ {l : List α} {s : α}, s ∈ l → f s ≠ [] →
      1 ≤ ((l.map f).flatten).length := by
  intro l
  induction l with
  | nil => intro s hs; cases hs
  | cons x rest ih =>
    intro s hs hf
    rw [List.map_cons,
      show ((f x :: rest.map f).flatten) = f x ++ (rest.map f).flatten from rfl,
      List.length_append]
    cases hs with
    | head =>
      have h1 : 1 ≤ (f x).length := List.length_pos.mpr hf
      exact le_trans h1 (Nat.le_add_right _ _)
    | tail _ hmem =>
      have h1 := ih hmem hf
      exact le_trans h1 (Nat.le_add_left _ _)

theorem length_flatten_two {α β : Type} (f : α → List β) :
    ∀ {l : List α} {s1 s2 : α}, s1 ∈ l → s2 ∈ l → ¬ s1 = s2 →
      f s1 ≠ [] → f s2 ≠ [] → 2 ≤ ((l.map f).flatten).length := by
  intro l
  induction l with
  | nil => intro s1 s2 hs1; cases hs1
  | cons x rest ih =>
    intro s1 s2 hs1 hs2 hne hf1 hf2
    rw [List.map_cons,
      show ((f x :: rest.map f).flatten) = f x ++ (rest.map f).flatten from rfl,
      List.length_append]
    cases hs1 with
    | head =>
      have hs2r : s2 ∈ rest := by
        cases hs2 with
        | head => exact absurd rfl hne
        | tail _ hmem => exact hmem
      have h1 : 1 ≤ (f x).length := List.length_pos.mpr hf1
      have h2 : 1 ≤ ((rest.map f).flatten).length :=
        length_flatten_pos f hs2r hf2
      exact Nat.add_le_add h1 h2
    | tail _ hmem1 =>
      cases hs2 with
      | head =>
        have h1 : 1 ≤ (f x).length := List.length_pos.mpr hf2
        have h2 : 1 ≤ ((rest.map f).flatten).length :=
          length_flatten_pos f hmem1 hf1
        exact Nat.add_le_add h1 h2
      | tail _ hmem2 =>
        have := ih hmem1 hmem2 hne hf1 hf2
        exact le_trans this (Nat.le_add_left _ _)

theorem mem_missing_violation {s : RawSheet}
    (hmc : requiredColumns.filter (fun c => ¬ s.columns.contains c) ≠ []) :
    missingColumnsMsg s.name
        (requiredColumns.filter (fun c => ¬ s.columns.contains c)) ∈
      sheetViolations s := by
  unfold sheetViolations
  cases hm : requiredColumns.filter (fun c => ¬ s.columns.contains c) with
  | nil => exact absurd hm hmc
  | cons c cs =>
    apply List.mem_append.mpr
    left
    simp

theorem mem_empty_violation {s : RawSheet} (h : s.nrows = 0) :
    emptySheetMsg s.name ∈ sheetViolations s := by
  unfold sheetViolations
  apply List.mem_append.mpr
  right
  rw [if_pos (by simp [h])]
  simp

theorem validate_invalid_of_mem {sheets : List RawSheet} {msg : String}
    (h : msg ∈ ((sheets.filter (fun sh => ¬ sh.name == "ALL")).map
      sheetViolations).flatten) :
    (validate_excel_for_update sheets).1 = false ∧
    msg ∈ (validate_excel_for_update sheets).2 ∧
    (validate_excel_for_update sheets).2 =
      ((sheets.filter (fun sh => ¬ sh.name == "ALL")).map
        sheetViolations).flatten := by
  unfold validate_excel_for_update
  cases hos : sheets.filter (fun sh => ¬ sh.name == "ALL") with
  | nil =>
    rw [hos] at h
    simp at h
  | cons q qs =>
    rw [hos] at h
    cases hfl : ((q :: qs).map sheetViolations).flatten with
    | nil =>
      rw [hfl] at h
      cases h
    | cons m ms =>
      rw [hfl] at h
      have hred : (match q :: qs with
          | [] => (false, [noObjectSheetsMsg])
          | object_sheets =>
            match (List.map sheetViolations object_sheets).flatten with
            | [] => (true, [validFormatMsg])
            | messages => (false, messages)) = (false, m :: ms) := by
        show (match (List.map sheetViolations (q :: qs)).flatten with
            | [] => (true, [validFormatMsg])
            | messages => (false, messages)) = (false, m :: ms)
        rw [hfl]
      rw [hred]
      exact ⟨rfl, h, rfl⟩

/-- C8: validation completeness — `validate_excel_for_update` fails closed
and collects every violation across all sheets in one pass: (a) with only
an `ALL` sheet it returns invalid with the explanatory message; (b) two
different sheets each missing required columns both contribute their own
message (at least two messages are returned, not just the first); (c) a
sheet with zero rows always contributes its emptiness message. -/
theorem C8_validation_completeness :
    (∀ sheets : List RawSheet,
        sheets.filter (fun sh => ¬ sh.name == "ALL") = [] →
        validate_excel_for_update sheets = (false, [noObjectSheetsMsg])) ∧
    (∀ (sheets : List RawSheet) (s1 s2 : RawSheet),
        s1 ∈ sheets → s2 ∈ sheets →
        ¬ s1.name = "ALL" → ¬ s2.name = "ALL" → ¬ s1.name = s2.name →
        requiredColumns.filter (fun c => ¬ s1.columns.contains c) ≠ [] →
        requiredColumns.filter (fun c => ¬ s2.columns.contains c) ≠ [] →
        (validate_excel_for_update sheets).1 = false ∧
        missingColumnsMsg s1.name
            (requiredColumns.filter (fun c => ¬ s1.columns.contains c)) ∈
          (validate_excel_for_update sheets).2 ∧
        missingColumnsMsg s2.name
            (requiredColumns.filter (fun c => ¬ s2.columns.contains c)) ∈
          (validate_excel_for_update sheets).2 ∧
        2 ≤ (validate_excel_for_update sheets).2.length) ∧
    (∀ (sheets : List RawSheet) (s : RawSheet),
        s ∈ sheets → ¬ s.name = "ALL" → s.nrows = 0 →
        (validate_excel_for_update sheets).1 = false ∧
        emptySheetMsg s.name ∈ (validate_excel_for_update sheets).2) := by
  refine ⟨?_, ?_, ?_⟩
  · intro sheets hos
    unfold validate_excel_for_update
    rw [hos]
  · intro sheets s1 s2 hs1 hs2 hn1 hn2 hnames hmc1 hmc2
    have hf1 : s1 ∈ sheets.filter (fun sh => ¬ sh.name == "ALL") :=
      List.mem_filter.mpr ⟨hs1, by simpa using hn1⟩
    have hf2 : s2 ∈ sheets.filter (fun sh => ¬ sh.name == "ALL") :=
      List.mem_filter.mpr ⟨hs2, by simpa using hn2⟩
    have hne12 : ¬ s1 = s2 := fun h => hnames (by rw [h])
    have hm1 : missingColumnsMsg s1.name
        (requiredColumns.filter (fun c => ¬ s1.columns.contains c)) ∈
        ((sheets.filter (fun sh => ¬ sh.name == "ALL")).map
          sheetViolations).flatten :=
      List.mem_flatten.mpr ⟨sheetViolations s1,
        List.mem_map.mpr ⟨s1, hf1, rfl⟩, mem_missing_violation hmc1⟩
    have hm2 : missingColumnsMsg s2.name
        (requiredColumns.filter (fun c => ¬ s2.columns.contains c)) ∈
        ((sheets.filter (fun sh => ¬ sh.name == "ALL")).map
          sheetViolations).flatten :=
      List.mem_flatten.mpr ⟨sheetViolations s2,
        List.mem_map.mpr ⟨s2, hf2, rfl⟩, mem_missing_violation hmc2⟩
    obtain ⟨hinv, hmem1, heq⟩ := validate_invalid_of_mem hm1
    obtain ⟨_, hmem2, _⟩ := validate_invalid_of_mem hm2
    refine ⟨hinv, hmem1, hmem2, ?_⟩
    rw [heq]
    exact length_flatten_two sheetViolations hf1 hf2 hne12
      (List.ne_nil_of_mem (mem_missing_violation hmc1))
      (List.ne_nil_of_mem (mem_missing_violation hmc2))
  · intro sheets s hs hn hrows
    have hf : s ∈ sheets.filter (fun sh => ¬ sh.name == "ALL") :=
      List.mem_filter.mpr ⟨hs, by simpa using hn⟩
    have hm : emptySheetMsg s.name ∈
        ((sheets.filter (fun sh => ¬ sh.name == "ALL")).map
          sheetViolations).flatten :=
      List.mem_flatten.mpr ⟨sheetViolations s,
        List.mem_map.mpr ⟨s, hf, rfl⟩, mem_empty_violation hrows⟩
    obtain ⟨hinv, hmem, _⟩ := validate_invalid_of_mem hm
    exact ⟨hinv, hmem⟩

/-- C8 (witness): the three completeness conjuncts at concrete workbooks —
an only-ALL workbook, a workbook with two different column-deficient
sheets, and a workbook with an empty sheet. -/
theorem C8_validation_completeness_witness :
    validate_excel_for_update [⟨"ALL", ["ObjectType"], 3⟩] =
      (false, [noObjectSheetsMsg]) ∧
    ((validate_excel_for_update
        [⟨"A", ["ObjectName"], 1⟩, ⟨"B", ["FieldName"], 0⟩]).1 = false ∧
     missingColumnsMsg "A"
        (requiredColumns.filter (fun c =>
          ¬ (RawSheet.columns ⟨"A", ["ObjectName"], 1⟩).contains c)) ∈
       (validate_excel_for_update
         [⟨"A", ["ObjectName"], 1⟩, ⟨"B", ["FieldName"], 0⟩]).2 ∧
     missingColumnsMsg "B"
        (requiredColumns.filter (fun c =>
          ¬ (RawSheet.columns ⟨"B", ["FieldName"], 0⟩).contains c)) ∈
       (validate_excel_for_update
         [⟨"A", ["ObjectName"], 1⟩, ⟨"B", ["FieldName"], 0⟩]).2 ∧
     2 ≤ (validate_excel_for_update
       [⟨"A", ["ObjectName"], 1⟩, ⟨"B", ["FieldName"], 0⟩]).2.length) ∧
    ((validate_excel_for_update
        [⟨"A", ["ObjectName"], 1⟩, ⟨"B", ["FieldName"], 0⟩]).1 = false ∧
     emptySheetMsg "B" ∈
       (validate_excel_for_update
         [⟨"A", ["ObjectName"], 1⟩, ⟨"B", ["FieldName"], 0⟩]).2) :=
  ⟨C8_validation_completeness.1 [⟨"ALL", ["ObjectType"], 3⟩] (by decide),
   C8_validation_completeness.2.1
     [⟨"A", ["ObjectName"], 1⟩, ⟨"B", ["FieldName"], 0⟩]
     ⟨"A", ["ObjectName"], 1⟩ ⟨"B", ["FieldName"], 0⟩
     (by decide) (by decide) (by decide) (by decide) (by decide)
     (by decide) (by decide),
   C8_validation_completeness.2.2
     [⟨"A", ["ObjectName"], 1⟩, ⟨"B", ["FieldName"], 0⟩]
     ⟨"B", ["FieldName"], 0⟩ (by decide) (by decide) (by decide)⟩
